import Mathlib

/-!
Verification of the shielded-pool core of starknet-agentic
(skills/_integrations/starknet-privacy): a shallow embedding in Lean of
scripts/notes.py (ConfidentialNote, NoteMerkleTree), scripts/merkle_tree.py
(PedersenHasher, Note, MerkleTree, verify_merkle_proof) and
scripts/shielded_pool.py (ShieldedPool), together with theorems settling the
specification claims about commitments, nullifiers, Merkle proofs, balance
accounting, error precedence, atomicity, capacity, and persistence.

Modelling conventions:
- Python ints are embedded as Nat (the spec declares note values unsigned and
  all hashes produce field elements, i.e. nonnegative numbers).
- The SHA-256 stand-in hashes used throughout the source are embedded by an
  executable SHA-256 over byte lists, so every hash value is computed exactly
  as Python's hashlib.sha256 does on the same rendered strings.
- Python dicts keyed by hex(commitment) strings are embedded as insertion
  ordered association lists keyed by the commitment value itself; hex is
  injective, and dict insertion order is what the association list preserves.
- The fixed-size Python list self._tree of NoteMerkleTree, and the dicts of
  MerkleTree, are embedded as total functions Nat -> Option Nat (unset cell =
  None); the leaves list of NoteMerkleTree stays a genuine list because the
  source calls list.index and len on it.
- Calls to secrets.randbits are embedded as explicit salt parameters: every
  operation takes the random values it would draw as extra arguments.
- In-place mutation with exceptions is embedded by returning the pair
  (state after the call, Except error result): a raise that happens after a
  partial mutation returns the partially mutated state, exactly as the Python
  object would retain it.
-/

set_option maxRecDepth 8000000

/-! ## SHA-256, executable (models Python hashlib.sha256) -/

namespace Sha256

def rotr (x n : Nat) : Nat :=
  ((x >>> n) ||| (x <<< (32 - n))) % 4294967296

def bsig0 (x : Nat) : Nat := (rotr x 2) ^^^ (rotr x 13) ^^^ (rotr x 22)
def bsig1 (x : Nat) : Nat := (rotr x 6) ^^^ (rotr x 11) ^^^ (rotr x 25)
def ssig0 (x : Nat) : Nat := (rotr x 7) ^^^ (rotr x 18) ^^^ (x >>> 3)
def ssig1 (x : Nat) : Nat := (rotr x 17) ^^^ (rotr x 19) ^^^ (x >>> 10)

def ch (x y z : Nat) : Nat := (x &&& y) ^^^ ((x ^^^ 4294967295) &&& z)
def maj (x y z : Nat) : Nat := (x &&& y) ^^^ (x &&& z) ^^^ (y &&& z)

def K : List Nat :=
  [1116352408, 1899447441, 3049323471, 3921009573, 961987163, 1508970993,
   2453635748, 2870763221, 3624381080, 310598401, 607225278, 1426881987,
   1925078388, 2162078206, 2614888103, 3248222580, 3835390401, 4022224774,
   264347078, 604807628, 770255983, 1249150122, 1555081692, 1996064986,
   2554220882, 2821834349, 2952996808, 3210313671, 3336571891, 3584528711,
   113926993, 338241895, 666307205, 773529912, 1294757372, 1396182291,
   1695183700, 1986661051, 2177026350, 2456956037, 2730485921, 2820302411,
   3259730800, 3345764771, 3516065817, 3600352804, 4094571909, 275423344,
   430227734, 506948616, 659060556, 883997877, 958139571, 1322822218,
   1537002063, 1747873779, 1955562222, 2024104815, 2227730452, 2361852424,
   2428436474, 2756734187, 3204031479, 3329325298]

/-- Message schedule: extend the 16 block words to 64 words. -/
def extendW (w : List Nat) : Nat → List Nat
  | 0 => w
  | fuel + 1 =>
    let n := w.length
    let nw := (ssig1 (w.getD (n - 2) 0) + w.getD (n - 7) 0 +
               ssig0 (w.getD (n - 15) 0) + w.getD (n - 16) 0) % 4294967296
    extendW (w ++ [nw]) fuel

structure Hs where
  a : Nat
  b : Nat
  c : Nat
  d : Nat
  e : Nat
  f : Nat
  g : Nat
  h : Nat

def hround (s : Hs) (kw : Nat × Nat) : Hs :=
  let t1 := (s.h + bsig1 s.e + ch s.e s.f s.g + kw.1 + kw.2) % 4294967296
  let t2 := (bsig0 s.a + maj s.a s.b s.c) % 4294967296
  ⟨(t1 + t2) % 4294967296, s.a, s.b, s.c, (s.d + t1) % 4294967296, s.e, s.f, s.g⟩

/-- Big-endian bytes to 32-bit words, four bytes each. -/
def toWords : List Nat → List Nat
  | b0 :: b1 :: b2 :: b3 :: rest => (b0 * 16777216 + b1 * 65536 + b2 * 256 + b3) :: toWords rest
  | _ => []

def compress (h : List Nat) (block : List Nat) : List Nat :=
  let w := extendW (toWords block) 48
  let s0 : Hs := ⟨h.getD 0 0, h.getD 1 0, h.getD 2 0, h.getD 3 0,
                  h.getD 4 0, h.getD 5 0, h.getD 6 0, h.getD 7 0⟩
  let s := (K.zip w).foldl hround s0
  [(h.getD 0 0 + s.a) % 4294967296, (h.getD 1 0 + s.b) % 4294967296,
   (h.getD 2 0 + s.c) % 4294967296, (h.getD 3 0 + s.d) % 4294967296,
   (h.getD 4 0 + s.e) % 4294967296, (h.getD 5 0 + s.f) % 4294967296,
   (h.getD 6 0 + s.g) % 4294967296, (h.getD 7 0 + s.h) % 4294967296]

def H0 : List Nat :=
  [1779033703, 3144134277, 1013904242, 2773480762,
   1359893119, 2600822924, 528734635, 1541459225]

/-- Split the padded message into 64-byte blocks (fuel bounds the recursion). -/
def toBlocks (fuel : Nat) (l : List Nat) : List (List Nat) :=
  match fuel, l with
  | _, [] => []
  | 0, _ => []
  | fuel + 1, l => l.take 64 :: toBlocks fuel (l.drop 64)

/-- Big-endian byte rendering of a number at a fixed width. -/
def beBytes : Nat → Nat → List Nat
  | 0, _ => []
  | w + 1, n => beBytes w (n / 256) ++ [n % 256]

def pad (msg : List Nat) : List Nat :=
  let len := msg.length
  let k := (119 - len % 64) % 64
  msg ++ [128] ++ List.replicate k 0 ++ beBytes 8 (len * 8)

/-- SHA-256 digest of a byte list, as a natural number; this equals Python's
int(hashlib.sha256(data).hexdigest(), 16). -/
def sha256 (msg : List Nat) : Nat :=
  let p := pad msg
  let hs := (toBlocks (p.length) p).foldl compress H0
  hs.foldl (fun acc w => acc * 4294967296 + w) 0

end Sha256

/-! ## Rendering numbers and strings to bytes, as Python f-strings do -/

/-- Decimal digits of n, most significant first (fuel-driven; fuel = n + 1 is
always enough since a number has at most n + 1 digits). -/
def decDigitsAux : Nat → Nat → List Nat
  | 0, _ => []
  | fuel + 1, n => if n < 10 then [n] else decDigitsAux fuel (n / 10) ++ [n % 10]

/-- ASCII bytes of the decimal rendering of n, i.e. of the Python string
str(n) for a nonnegative int. -/
def decBytes (n : Nat) : List Nat :=
  (decDigitsAux (n + 1) n).map (· + 48)

/-- ASCII/UTF-8 bytes of a Lean string (all strings used here are ASCII). -/
def strBytes (s : String) : List Nat :=
  s.data.map Char.toNat

/-- Bytes of the Python f-string "{a}:{b}" for ints a, b (58 is a colon). -/
def catColon2 (a b : Nat) : List Nat :=
  decBytes a ++ 58 :: decBytes b

/-- Bytes of the Python f-string "{a}:{b}:{c}" for ints a, b, c. -/
def catColon3 (a b c : Nat) : List Nat :=
  decBytes a ++ 58 :: decBytes b ++ 58 :: decBytes c

/-! ## scripts/notes.py : ConfidentialNote -/

/-- ConfidentialNote._compute_commitment:
int(sha256(f"{value}:{secret}:{salt}").hexdigest(), 16) % 2**251. -/
def confCommitment (value secret salt : Nat) : Nat :=
  Sha256.sha256 (catColon3 value secret salt) % 2 ^ 251

/-- ConfidentialNote._compute_nullifier:
int(sha256(f"{commitment}:{nullifier_salt}").hexdigest(), 16) % 2**251. -/
def confNullifier (commitment nullifierSalt : Nat) : Nat :=
  Sha256.sha256 (catColon2 commitment nullifierSalt) % 2 ^ 251

/-- ConfidentialNote._compute_encryption_key:
int(sha256(f"{secret}:{salt}").hexdigest(), 16) % 2**128. -/
def confEncryptionKey (secret salt : Nat) : Nat :=
  Sha256.sha256 (catColon2 secret salt) % 2 ^ 128

/-- The ConfidentialNote dataclass of notes.py. The three derived fields are
Optional in Python but are always set by ConfidentialNote.create, which is the
only constructor the pool uses. -/
structure ConfidentialNote where
  value : Nat
  secret : Nat
  salt : Nat
  nullifier_salt : Nat
  commitment : Nat
  nullifier : Nat
  encryption_key : Nat
  deriving DecidableEq

/-- ConfidentialNote.create: the two randbits draws (salt, nullifier_salt) are
passed explicitly; the derived fields are computed exactly as in the source. -/
def ConfidentialNote.create (value secret salt nullifierSalt : Nat) : ConfidentialNote :=
  let c := confCommitment value secret salt
  { value := value
    secret := secret
    salt := salt
    nullifier_salt := nullifierSalt
    commitment := c
    nullifier := confNullifier c nullifierSalt
    encryption_key := confEncryptionKey secret salt }

/-! ## scripts/shielded_pool.py and notes.py : error kinds

One inductive covers Python's ValueError and the ShieldedPoolError hierarchy;
each dataclass error of shielded_pool.py is one constructor. -/

inductive PoolErr where
  | valueError (msg : String)
  | noteNotFound (commitment : Nat)
  | insufficientBalance (available required : Nat)
  | alreadySpent (nullifier : Nat)
  | invalidSecret (commitment : Nat)
  | poolError (msg : String)
  deriving DecidableEq

/-! ## scripts/notes.py : NoteMerkleTree -/

/-- The inline parent hash of NoteMerkleTree.insert and verify_proof:
int(sha256(f"{left}:{right}").hexdigest(), 16) % 2**251. -/
def hashNodes (l r : Nat) : Nat :=
  Sha256.sha256 (catColon2 l r) % 2 ^ 251

/-- The MerkleProof dataclass of notes.py. -/
structure MerkleProof where
  leafIndex : Nat
  root : Nat
  path : List Nat
  leaves : List Nat
  deriving DecidableEq

/-- NoteMerkleTree: leaves is the fixed-size Python list (None-initialised),
nodes is the fixed-size array self._tree as a total function (unset = none). -/
structure NoteMerkleTree where
  depth : Nat
  leaves : List (Option Nat)
  nextIndex : Nat
  nodes : Nat → Option Nat

/-- NoteMerkleTree.__init__(depth). -/
def NoteMerkleTree.new (depth : Nat) : NoteMerkleTree :=
  ⟨depth, List.replicate (2 ^ depth) none, 0, fun _ => none⟩

/-- Point update of the _tree array. -/
def updNodes (f : Nat → Option Nat) (p : Nat) (v : Option Nat) : Nat → Option Nat :=
  fun q => if q = p then v else f q

/-- The parent combination of NoteMerkleTree.insert: None propagation when a
child is missing, otherwise the inline sha256 hash. -/
def combineNodes : Option Nat → Option Nat → Option Nat
  | none, none => none
  | none, some r => some r
  | some l, none => some l
  | some l, some r => some (hashNodes l r)

/-- The parent-update loop of NoteMerkleTree.insert: walks steps times from
pos up to the root, recombining children at each level. -/
def updateParents (nodes : Nat → Option Nat) (pos : Nat) : Nat → (Nat → Option Nat)
  | 0 => nodes
  | steps + 1 =>
    let p := (pos - 1) / 2
    let v := combineNodes (nodes (2 * p + 1)) (nodes (2 * p + 2))
    updateParents (updNodes nodes p v) p steps

/-- NoteMerkleTree.insert: raises ValueError("Merkle tree is full") before any
mutation when next_index >= len(leaves); otherwise writes the leaf, updates
the parent chain and increments next_index, returning the assigned index. -/
def NoteMerkleTree.insert (t : NoteMerkleTree) (c : Nat) : NoteMerkleTree × Except PoolErr Nat :=
  if t.leaves.length ≤ t.nextIndex then
    (t, .error (.valueError "Merkle tree is full"))
  else
    let index := t.nextIndex
    let leaves := t.leaves.set index (some c)
    let pos := index + 2 ^ t.depth - 1
    let nodes := updateParents (updNodes t.nodes pos (some c)) pos t.depth
    ({ depth := t.depth, leaves := leaves, nextIndex := index + 1, nodes := nodes }, .ok index)

/-- NoteMerkleTree.get_root: self._tree[1] or 0 (note: position 1, the left
child of the heap root at position 0). -/
def NoteMerkleTree.getRoot (t : NoteMerkleTree) : Nat :=
  (t.nodes 1).getD 0

/-- The sibling-collection loop of NoteMerkleTree.get_proof. -/
def proofPathAux (nodes : Nat → Option Nat) (pos : Nat) : Nat → List Nat
  | 0 => []
  | steps + 1 =>
    let siblingPos := if pos % 2 == 0 then pos + 1 else pos - 1
    ((nodes siblingPos).getD 0) :: proofPathAux nodes ((pos - 1) / 2) steps

/-- NoteMerkleTree.get_proof: raises ValueError("Invalid index") when
index >= next_index, else collects one sibling per level bottom-up. -/
def NoteMerkleTree.getProof (t : NoteMerkleTree) (index : Nat) : Except PoolErr MerkleProof :=
  if t.nextIndex ≤ index then .error (.valueError "Invalid index")
  else .ok
    { leafIndex := index
      root := t.getRoot
      path := proofPathAux t.nodes (index + 2 ^ t.depth - 1) t.depth
      leaves := (t.leaves.take t.nextIndex).filterMap id }

/-- NoteMerkleTree.verify_proof: refolds hash(current, sibling) over the path
(the recorded side is never consulted) and compares with proof.root. -/
def NoteMerkleTree.verifyProof (commitment : Nat) (proof : MerkleProof) : Bool :=
  (proof.path.foldl (fun cur sib => hashNodes cur sib) commitment) == proof.root

/-! ## scripts/merkle_tree.py : PedersenHasher, Note, MerkleTree -/

def STARKNET_PRIME : Nat := 2 ^ 251 + 17 * 2 ^ 192 + 1

/-- PedersenHasher.hash: sha256 of f-string of the two inputs reduced into the
field, reduced again into the field. -/
def pedersenHash (a b : Nat) : Nat :=
  Sha256.sha256 (catColon2 (a % STARKNET_PRIME) (b % STARKNET_PRIME)) % STARKNET_PRIME

/-- PedersenHasher.hash_list. -/
def pedersenHashList (values : List Nat) : Nat :=
  match values with
  | [] => 0
  | v :: vs => vs.foldl pedersenHash v

/-- The Note dataclass of merkle_tree.py (distinct from ConfidentialNote). -/
structure MTNote where
  value : Nat
  secret : Nat
  salt : Nat
  commitment : Nat
  nullifier : Nat
  deriving DecidableEq

/-- Note.compute_commitment: C = H(value, H(secret, salt)). -/
def MTNote.computeCommitmentOf (value secret salt : Nat) : Nat :=
  pedersenHash value (pedersenHash secret salt)

/-- Note.compute_nullifier: N = H(secret, salt). -/
def MTNote.computeNullifierOf (secret salt : Nat) : Nat :=
  pedersenHash secret salt

/-- Note.__post_init__: fills both derived fields from (value, secret, salt). -/
def MTNote.create (value secret salt : Nat) : MTNote :=
  { value := value
    secret := secret
    salt := salt
    commitment := MTNote.computeCommitmentOf value secret salt
    nullifier := MTNote.computeNullifierOf secret salt }

/-- The sparse MerkleTree of merkle_tree.py: leaves and per-level node dicts
as total functions (missing key = none). -/
structure MerkleTree where
  height : Nat
  leavesD : Nat → Option Nat
  treeD : Nat → Nat → Option Nat
  nextIndex : Nat

def MerkleTree.new (height : Nat) : MerkleTree :=
  ⟨height, fun _ => none, fun _ _ => none, 0⟩

def updD (f : Nat → Option Nat) (k v : Nat) : Nat → Option Nat :=
  fun q => if q = k then some v else f q

def updD2 (f : Nat → Nat → Option Nat) (l k v : Nat) : Nat → Nat → Option Nat :=
  fun l' q => if l' = l then (if q = k then some v else f l' q) else f l' q

/-- The level loop of MerkleTree.insert (levels level, level+1, ...): hashes
with the sibling from the level below (0 when missing), left/right by parity,
stores the parent, and records the path of computed node values. -/
def mtInsertLoop (treeD : Nat → Nat → Option Nat) (current currentIndex level : Nat) :
    Nat → ((Nat → Nat → Option Nat) × List Nat)
  | 0 => (treeD, [])
  | steps + 1 =>
    let siblingIndex := currentIndex ^^^ 1
    let sibling := (treeD (level - 1) siblingIndex).getD 0
    let current' := if currentIndex % 2 == 0 then pedersenHash current sibling
                    else pedersenHash sibling current
    let treeD' := updD2 treeD level (currentIndex / 2) current'
    let r := mtInsertLoop treeD' current' (currentIndex / 2) (level + 1) steps
    (r.1, current' :: r.2)

/-- MerkleTree.insert: no capacity check; stores the leaf, rebuilds the branch
to the root and returns (index, path of node values). -/
def MerkleTree.insert (t : MerkleTree) (commitment : Nat) : MerkleTree × (Nat × List Nat) :=
  let index := t.nextIndex
  let leavesD := updD t.leavesD index commitment
  let treeD := updD2 t.treeD 0 index commitment
  let r := mtInsertLoop treeD commitment index 1 t.height
  (⟨t.height, leavesD, r.1, index + 1⟩, (index, commitment :: r.2))

/-- MerkleTree.get_root: self.tree[self.height].get(0, 0). -/
def MerkleTree.getRoot (t : MerkleTree) : Nat :=
  (t.treeD t.height 0).getD 0

/-- The level loop of MerkleTree.get_proof: note the source reads siblings
from self.leaves (the leaf dict) at every level, with halved indices. -/
def mtProofAux (leavesD : Nat → Option Nat) (index : Nat) : Nat → List (Nat × Bool)
  | 0 => []
  | steps + 1 =>
    ((leavesD (index ^^^ 1)).getD 0, index % 2 == 0) :: mtProofAux leavesD (index / 2) steps

/-- MerkleTree.get_proof: list of (sibling, is_left) pairs over height levels. -/
def MerkleTree.getProof (t : MerkleTree) (index : Nat) : List (Nat × Bool) :=
  mtProofAux t.leavesD index t.height

/-- verify_merkle_proof of merkle_tree.py: folds hash(current, sibling) or
hash(sibling, current) according to the recorded side, compares to root. -/
def verifyMerkleProof (leaf : Nat) (proof : List (Nat × Bool)) (root : Nat) : Bool :=
  (proof.foldl (fun cur p => if p.2 then pedersenHash cur p.1 else pedersenHash p.1 cur) leaf)
    == root

/-! ## scripts/shielded_pool.py : ShieldedPool -/

/-- The pool state: notes is the dict commitment-hex -> ConfidentialNote as an
insertion-ordered association list keyed by the commitment value (hex is
injective); nullifiers is the Python set as a membership list. -/
structure PoolState where
  name : String
  notes : List (Nat × ConfidentialNote)
  nullifiers : List Nat
  tree : NoteMerkleTree

/-- ShieldedPool.__init__: merkle_depth is the class constant 16. -/
def PoolState.new (name : String) : PoolState :=
  ⟨name, [], [], NoteMerkleTree.new 16⟩

def emptyPool : PoolState := PoolState.new "starknet-shielded-pool"

/-- Dict lookup self.notes[key]. -/
def notesFind : List (Nat × ConfidentialNote) → Nat → Option ConfidentialNote
  | [], _ => none
  | (k, v) :: rest, c => if k = c then some v else notesFind rest c

/-- Dict assignment self.notes[key] = note: updates in place when the key
exists (keeping its position), else appends, as Python dicts do. -/
def notesSet : List (Nat × ConfidentialNote) → Nat → ConfidentialNote →
    List (Nat × ConfidentialNote)
  | [], k, v => [(k, v)]
  | (k', v') :: rest, k, v =>
    if k' = k then (k, v) :: rest else (k', v') :: notesSet rest k v

/-- Dict deletion del self.notes[key] (callers only delete present keys). -/
def notesErase : List (Nat × ConfidentialNote) → Nat → List (Nat × ConfidentialNote)
  | [], _ => []
  | (k', v') :: rest, k => if k' = k then rest else (k', v') :: notesErase rest k

/-- Python set.add on the membership-list embedding of the nullifier set. -/
def nullAdd (l : List Nat) (n : Nat) : List Nat :=
  if n ∈ l then l else l ++ [n]

/-- Python list.index on the leaves list (first matching position, None when
absent; the source turns the absence ValueError into a ShieldedPoolError). -/
def pyListIndexAux : List (Option Nat) → Nat → Nat → Option Nat
  | [], _, _ => none
  | x :: xs, c, i => if x = some c then some i else pyListIndexAux xs c (i + 1)

def pyListIndex (l : List (Option Nat)) (c : Nat) : Option Nat :=
  pyListIndexAux l c 0

/-- Result record of ShieldedPool.deposit (the fields of the returned dict
that carry state: amount, the note, derived values, index and root). -/
structure DepositReceipt where
  amount : Nat
  note : ConfidentialNote
  commitment : Nat
  nullifier : Nat
  merkleIndex : Nat
  merkleRoot : Nat
  deriving DecidableEq

/-- ShieldedPool.deposit: rejects amount <= 0 (Nat embedding: amount = 0; the
spec declares values unsigned), creates the note, inserts its commitment into
the tree (a full-tree ValueError propagates with no state change, since the
tree raises before mutating), then stores the note keyed by its commitment. -/
def ShieldedPool.deposit (st : PoolState) (amount ownerSecret salt nullifierSalt : Nat) :
    PoolState × Except PoolErr DepositReceipt :=
  if amount = 0 then (st, .error (.valueError "Amount must be positive"))
  else
    let note := ConfidentialNote.create amount ownerSecret salt nullifierSalt
    match st.tree.insert note.commitment with
    | (t', .error e) => ({ st with tree := t' }, .error e)
    | (t', .ok index) =>
      ({ st with tree := t', notes := notesSet st.notes note.commitment note },
       .ok { amount := amount, note := note, commitment := note.commitment,
             nullifier := note.nullifier, merkleIndex := index, merkleRoot := t'.getRoot })

/-- recipient_secret of ShieldedPool.create_transfer:
int(sha256(to_address.encode()).hexdigest(), 16) % 2**256. -/
def recipientSecretOf (toAddress : String) : Nat :=
  Sha256.sha256 (strBytes toAddress) % 2 ^ 256

/-- Result record of ShieldedPool.create_transfer. -/
structure TransferReceipt where
  fromNote : ConfidentialNote
  toNote : ConfidentialNote
  changeNote : Option ConfidentialNote
  amountTransferred : Nat
  changeAmount : Nat
  nullifierPublished : Nat
  proof : MerkleProof
  newRoot : Nat
  deriving DecidableEq

/-- ShieldedPool.create_transfer. Checks in source order: unknown commitment,
then note.value < amount, then nullifier already published, then merkle proof
generation; only then publishes the nullifier, optionally creates and stores
a change note, and creates and stores the recipient note whose secret is
derived from to_address. A tree-full failure after the nullifier was added is
wrapped into a ShieldedPoolError and leaves the partial mutations in place,
exactly as the Python object retains them. The two randomness draws of each
created note are the explicit salt arguments. -/
def ShieldedPool.createTransfer (st : PoolState) (fromCommitment : Nat) (toAddress : String)
    (amount ownerSecret changeSalt changeNullifierSalt recipSalt recipNullifierSalt : Nat) :
    PoolState × Except PoolErr TransferReceipt :=
  match notesFind st.notes fromCommitment with
  | none => (st, .error (.noteNotFound fromCommitment))
  | some note =>
    if note.value < amount then (st, .error (.insufficientBalance note.value amount))
    else if note.nullifier ∈ st.nullifiers then (st, .error (.alreadySpent note.nullifier))
    else
      match pyListIndex st.tree.leaves note.commitment with
      | none => (st, .error (.poolError "Failed to generate merkle proof"))
      | some index =>
        match st.tree.getProof index with
        | .error _ => (st, .error (.poolError "Failed to generate merkle proof"))
        | .ok proof =>
          let nullifiers := nullAdd st.nullifiers note.nullifier
          let changeAmount := note.value - amount
          if 0 < changeAmount then
            let changeNote :=
              ConfidentialNote.create changeAmount ownerSecret changeSalt changeNullifierSalt
            match st.tree.insert changeNote.commitment with
            | (t1, .error _) =>
              ({ st with nullifiers := nullifiers, tree := t1 },
               .error (.poolError "Transfer failed"))
            | (t1, .ok _) =>
              let notes1 := notesSet st.notes changeNote.commitment changeNote
              let newNote := ConfidentialNote.create amount (recipientSecretOf toAddress)
                recipSalt recipNullifierSalt
              match t1.insert newNote.commitment with
              | (t2, .error _) =>
                ({ st with nullifiers := nullifiers, tree := t2, notes := notes1 },
                 .error (.poolError "Transfer failed"))
              | (t2, .ok _) =>
                ({ st with nullifiers := nullifiers, tree := t2,
                           notes := notesSet notes1 newNote.commitment newNote },
                 .ok { fromNote := note, toNote := newNote, changeNote := some changeNote,
                       amountTransferred := amount, changeAmount := changeAmount,
                       nullifierPublished := note.nullifier, proof := proof,
                       newRoot := t2.getRoot })
          else
            let newNote := ConfidentialNote.create amount (recipientSecretOf toAddress)
              recipSalt recipNullifierSalt
            match st.tree.insert newNote.commitment with
            | (t1, .error _) =>
              ({ st with nullifiers := nullifiers, tree := t1 },
               .error (.poolError "Transfer failed"))
            | (t1, .ok _) =>
              ({ st with nullifiers := nullifiers, tree := t1,
                         notes := notesSet st.notes newNote.commitment newNote },
               .ok { fromNote := note, toNote := newNote, changeNote := none,
                     amountTransferred := amount, changeAmount := 0,
                     nullifierPublished := note.nullifier, proof := proof,
                     newRoot := t1.getRoot })

/-- Result record of ShieldedPool.withdraw. -/
structure WithdrawReceipt where
  amount : Nat
  recipient : String
  nullifierPublished : Nat
  proof : MerkleProof
  deriving DecidableEq

/-- ShieldedPool.withdraw. Checks in source order: unknown commitment, then
nullifier already published, then ownership (note.secret == owner_secret),
then proof generation; on success publishes the nullifier and deletes the
note from the dict (the tree keeps its leaf). -/
def ShieldedPool.withdraw (st : PoolState) (commitment ownerSecret : Nat)
    (recipientAddress : String) : PoolState × Except PoolErr WithdrawReceipt :=
  match notesFind st.notes commitment with
  | none => (st, .error (.noteNotFound commitment))
  | some note =>
    if note.nullifier ∈ st.nullifiers then (st, .error (.alreadySpent note.nullifier))
    else if note.secret ≠ ownerSecret then (st, .error (.invalidSecret commitment))
    else
      match pyListIndex st.tree.leaves note.commitment with
      | none => (st, .error (.poolError "Failed to generate merkle proof"))
      | some index =>
        match st.tree.getProof index with
        | .error _ => (st, .error (.poolError "Failed to generate merkle proof"))
        | .ok proof =>
          ({ st with nullifiers := nullAdd st.nullifiers note.nullifier,
                     notes := notesErase st.notes commitment },
           .ok { amount := note.value, recipient := recipientAddress,
                 nullifierPublished := note.nullifier, proof := proof })

/-- Result record of ShieldedPool.get_balance. -/
structure BalanceView where
  totalBalance : Nat
  noteCount : Nat
  notes : List ConfidentialNote
  deriving DecidableEq

/-- ShieldedPool.get_balance: sums value over all stored notes whose secret
field equals the supplied secret, in dict order; reads no nullifier and
mutates nothing. -/
def ShieldedPool.getBalance (st : PoolState) (secret : Nat) : BalanceView :=
  let owned := st.notes.filter (fun p => p.2.secret == secret)
  { totalBalance := (owned.map (fun p => p.2.value)).sum
    noteCount := owned.length
    notes := owned.map (fun p => p.2) }

/-! ## scripts/shielded_pool.py : export_state / import_state -/

/-- The per-note dict written by ConfidentialNote.to_dict (hex strings in the
source; hex rendering and int(-, 16) parsing are mutually inverse, so the
fields are kept as numbers). -/
structure NoteDict where
  value : Nat
  secret : Nat
  salt : Nat
  nullifier_salt : Nat
  commitment : Nat
  nullifier : Nat
  deriving DecidableEq

/-- ConfidentialNote.to_dict. -/
def ConfidentialNote.toDict (n : ConfidentialNote) : NoteDict :=
  ⟨n.value, n.secret, n.salt, n.nullifier_salt, n.commitment, n.nullifier⟩

/-- ConfidentialNote.from_dict: restores the stored fields and recomputes the
encryption key from (secret, salt). -/
def ConfidentialNote.fromDict (d : NoteDict) : ConfidentialNote :=
  ⟨d.value, d.secret, d.salt, d.nullifier_salt, d.commitment, d.nullifier,
   confEncryptionKey d.secret d.salt⟩

/-- The state document of ShieldedPool.export_state. -/
structure PoolStateDoc where
  name : String
  notes : List (Nat × NoteDict)
  nullifiers : List Nat
  merkleRoot : Nat

/-- ShieldedPool.export_state. -/
def ShieldedPool.exportState (st : PoolState) : PoolStateDoc :=
  { name := st.name
    notes := st.notes.map (fun p => (p.1, p.2.toDict))
    nullifiers := st.nullifiers
    merkleRoot := st.tree.getRoot }

/-- The note-reinsertion loop of ShieldedPool.import_state; a full-tree
ValueError aborts the whole import (the half-built pool is lost). -/
def importNotes : PoolState → List (Nat × NoteDict) → Except PoolErr PoolState
  | pool, [] => .ok pool
  | pool, (k, d) :: rest =>
    let note := ConfidentialNote.fromDict d
    match pool.tree.insert note.commitment with
    | (_, .error e) => .error e
    | (t', .ok _) =>
      importNotes { pool with notes := notesSet pool.notes k note, tree := t' } rest

/-- ShieldedPool.import_state: fresh pool, re-inserts every exported note's
commitment into a fresh tree in document order, then replays the nullifiers. -/
def ShieldedPool.importState (doc : PoolStateDoc) : Except PoolErr PoolState :=
  match importNotes (PoolState.new doc.name) doc.notes with
  | .error e => .error e
  | .ok pool => .ok { pool with nullifiers := doc.nullifiers.foldl nullAdd pool.nullifiers }


/-! ## Operation sequences over the pool

Machinery for the claims that quantify over sequences of deposit, transfer
and withdraw calls on a pool constructed empty. An operation carries the
arguments of the call including the randomness it would draw. -/

inductive PoolOp where
  | dep (amount secret salt nullifierSalt : Nat)
  | tr (fromCommitment : Nat) (toAddress : String)
       (amount secret changeSalt changeNullifierSalt recipSalt recipNullifierSalt : Nat)
  | wd (commitment secret : Nat) (addr : String)

/-- State after one call (the call's error result, if any, is dropped; the
possibly mutated state is kept, as the caught Python exception would leave it). -/
def applyOp (st : PoolState) : PoolOp → PoolState
  | .dep a s sl ns => (ShieldedPool.deposit st a s sl ns).1
  | .tr c addr a s c1 c2 r1 r2 => (ShieldedPool.createTransfer st c addr a s c1 c2 r1 r2).1
  | .wd c s addr => (ShieldedPool.withdraw st c s addr).1

def runOps (st : PoolState) (ops : List PoolOp) : PoolState :=
  ops.foldl applyOp st

/-- Instrumented run: final state plus the sums of amounts of successful
deposits, amounts returned by successful withdrawals, and values of the notes
consumed by successful transfers. -/
def runAcc : PoolState → List PoolOp → PoolState × Nat × Nat × Nat
  | st, [] => (st, 0, 0, 0)
  | st, op :: ops =>
    let st' := applyOp st op
    let r := runAcc st' ops
    match op with
    | .dep a s sl ns =>
      match (ShieldedPool.deposit st a s sl ns).2 with
      | .ok rec => (r.1, rec.amount + r.2.1, r.2.2.1, r.2.2.2)
      | .error _ => r
    | .tr c addr a s c1 c2 r1 r2 =>
      match (ShieldedPool.createTransfer st c addr a s c1 c2 r1 r2).2 with
      | .ok rec => (r.1, r.2.1, r.2.2.1, rec.fromNote.value + r.2.2.2)
      | .error _ => r
    | .wd c s addr =>
      match (ShieldedPool.withdraw st c s addr).2 with
      | .ok rec => (r.1, r.2.1, rec.amount + r.2.2.1, r.2.2.2)
      | .error _ => r

/-- Success-and-freshness side condition for one operation: the call succeeds,
and every note it creates is stored under a commitment key not already in the
dict (distinct commitments, the cryptographic no-collision assumption made
explicit). -/
def okOp (st : PoolState) : PoolOp → Bool
  | .dep a s sl ns =>
    (ShieldedPool.deposit st a s sl ns).2.isOk &&
      (notesFind st.notes (ConfidentialNote.create a s sl ns).commitment).isNone
  | .tr c addr a s c1 c2 r1 r2 =>
    (ShieldedPool.createTransfer st c addr a s c1 c2 r1 r2).2.isOk &&
      (match notesFind st.notes c with
       | none => false
       | some note =>
         let newC := (ConfidentialNote.create a (recipientSecretOf addr) r1 r2).commitment
         (notesFind st.notes newC).isNone &&
           (if 0 < note.value - a then
              let changeC := (ConfidentialNote.create (note.value - a) s c1 c2).commitment
              (notesFind st.notes changeC).isNone && changeC != newC
            else true))
  | .wd c s addr => (ShieldedPool.withdraw st c s addr).2.isOk

def okRun : PoolState → List PoolOp → Bool
  | _, [] => true
  | st, op :: ops => okOp st op && okRun (applyOp st op) ops

/-- Sum of the value fields of all stored notes; this is the sum of
get_balance(s) over all secrets s, since every note is counted by exactly the
balance of its own secret (see the covering-sum lemma). -/
def totalValue (st : PoolState) : Nat :=
  (st.notes.map (fun p => p.2.value)).sum

/-- Modelled from the spec (section 4.5, get_balance): the balance a
nullifier-aware reader expects, i.e. the sum of value over stored notes whose
secret matches and whose nullifier has not been published. Used only to
compare the source's get_balance against the spec's words. -/
def specBalanceUnspent (st : PoolState) (secret : Nat) : Nat :=
  ((st.notes.filter
      (fun p => p.2.secret == secret && !(decide (p.2.nullifier ∈ st.nullifiers)))).map
    (fun p => p.2.value)).sum

/-- Sum of value over stored notes with matching secret whose nullifier HAS
been published (the part get_balance counts beyond the spec's words). -/
def spentBalance (st : PoolState) (secret : Nat) : Nat :=
  ((st.notes.filter
      (fun p => p.2.secret == secret && decide (p.2.nullifier ∈ st.nullifiers))).map
    (fun p => p.2.value)).sum

/-- Sum of transfer amounts a run sends to notes carrying a given derived
recipient secret, counting only successful transfers. -/
def sentToSecret : PoolState → List PoolOp → Nat → Nat
  | _, [], _ => 0
  | st, op :: ops, dA =>
    let rest := sentToSecret (applyOp st op) ops dA
    match op with
    | .tr c addr a s c1 c2 r1 r2 =>
      match (ShieldedPool.createTransfer st c addr a s c1 c2 r1 r2).2 with
      | .ok _ => (if recipientSecretOf addr = dA then a else 0) + rest
      | .error _ => rest
    | _ => rest

/-- Sequential insertion into a NoteMerkleTree recording each result. -/
def insertTrace : NoteMerkleTree → List Nat → NoteMerkleTree × List (Except PoolErr Nat)
  | t, [] => (t, [])
  | t, c :: cs =>
    let r := t.insert c
    let rr := insertTrace r.1 cs
    (rr.1, r.2 :: rr.2)

/-! ## Concrete scenarios used by counterexamples and witnesses -/

/-- Deposit 100 under secret 1, then transfer 40 of it to address 0xbob:
creates a change note of 60 (secret 1) and a recipient note of 40. -/
def scenChange : List PoolOp :=
  [.dep 100 1 2 3, .tr (confCommitment 100 1 2) "0xbob" 40 1 4 5 6 7]

def stChange : PoolState := runOps emptyPool scenChange

/-- Deposit 100 under secret 1, then transfer the full 100 to address 0xbob
(no change note); the spent note keeps sitting in the dict. -/
def scenSpend : List PoolOp :=
  [.dep 100 1 2 3, .tr (confCommitment 100 1 2) "0xbob" 100 1 4 5 6 7]

def stSpend : PoolState := runOps emptyPool scenSpend

/-- Deposit 100 under secret 1, then withdraw it: the note leaves the dict
but its leaf stays in the tree. -/
def scenWithdraw : List PoolOp :=
  [.dep 100 1 2 3, .wd (confCommitment 100 1 2) 1 "0xdd"]

def stWithdraw : PoolState := runOps emptyPool scenWithdraw

/-- A pool whose depth-16 tree has been filled by 65536 unit deposits under
secret 0 with pairwise distinct salts. -/
def depositsUpTo : Nat → PoolState
  | 0 => emptyPool
  | k + 1 => (ShieldedPool.deposit (depositsUpTo k) 1 0 k 0).1

def fullPool : PoolState := depositsUpTo 65536

/-- The commitment of the very first unit deposit of fullPool. -/
def c0full : Nat := confCommitment 1 0 0

/-- A hand-built note and pool used by witnesses of the all-states theorems:
one note of value 10 under secret 7 stored at commitment key 5 whose
nullifier 77 is already published. -/
def wNote : ConfidentialNote := ⟨10, 7, 0, 0, 5, 77, 0⟩

def wSpentPool : PoolState := ⟨"w", [(5, wNote)], [77], NoteMerkleTree.new 16⟩

/-- True when a run contains no withdraw operation. -/
def noWithdraw : List PoolOp → Bool
  | [] => true
  | .wd _ _ _ :: _ => false
  | _ :: ops => noWithdraw ops

/-- True when no operation of the run touches the secret dA on its owner
side: deposits never use it as owner secret, transfers never use it as the
spender's secret (their change notes would carry it), and withdrawals never
use it as the claimed owner secret. -/
def avoidsSecret (dA : Nat) : List PoolOp → Bool
  | [] => true
  | .dep _ s _ _ :: ops => s != dA && avoidsSecret dA ops
  | .tr _ _ _ s _ _ _ _ :: ops => s != dA && avoidsSecret dA ops
  | .wd _ s _ :: ops => s != dA && avoidsSecret dA ops

/-- The derived secret of transfers to the address 0xbob. -/
def bobSecret : Nat := recipientSecretOf "0xbob"

/-- The note created by the deposit of the concrete scenarios. -/
def noteD1 : ConfidentialNote := ConfidentialNote.create 100 1 2 3

/-- The change note of the scenChange transfer (60 back to secret 1). -/
def noteCh : ConfidentialNote := ConfidentialNote.create 60 1 4 5

/-- The recipient note of the scenChange transfer (40 to 0xbob). -/
def noteRe40 : ConfidentialNote := ConfidentialNote.create 40 bobSecret 6 7

/-- The recipient note of the scenSpend transfer (the full 100 to 0xbob). -/
def noteRe100 : ConfidentialNote := ConfidentialNote.create 100 bobSecret 6 7

/-- The pool after the deposit of the concrete scenarios. -/
def poolA : PoolState :=
  { name := "starknet-shielded-pool"
    notes := [(noteD1.commitment, noteD1)]
    nullifiers := []
    tree := ((NoteMerkleTree.new 16).insert noteD1.commitment).1 }

/-- The pool at the end of scenChange. -/
def poolChangeX : PoolState :=
  { name := "starknet-shielded-pool"
    notes := [(noteD1.commitment, noteD1), (noteCh.commitment, noteCh),
              (noteRe40.commitment, noteRe40)]
    nullifiers := [noteD1.nullifier]
    tree := ((((NoteMerkleTree.new 16).insert noteD1.commitment).1.insert
      noteCh.commitment).1.insert noteRe40.commitment).1 }

/-- The pool at the end of scenSpend. -/
def poolSpendX : PoolState :=
  { name := "starknet-shielded-pool"
    notes := [(noteD1.commitment, noteD1), (noteRe100.commitment, noteRe100)]
    nullifiers := [noteD1.nullifier]
    tree := (((NoteMerkleTree.new 16).insert noteD1.commitment).1.insert
      noteRe100.commitment).1 }

/-- The pool at the end of scenWithdraw. -/
def poolWithdrawX : PoolState :=
  { name := "starknet-shielded-pool"
    notes := []
    nullifiers := [noteD1.nullifier]
    tree := ((NoteMerkleTree.new 16).insert noteD1.commitment).1 }

/-- Iterated hashing with an all-zero sibling, the branch shape produced by
inserting a single leaf at index 0 into an empty sparse MerkleTree. -/
def hashZeroIter (c : Nat) : Nat → Nat
  | 0 => c
  | k + 1 => hashZeroIter (pedersenHash c 0) k

/-- A note deposited directly under the address-derived secret of 0xbob. -/
def noteBob : ConfidentialNote := ConfidentialNote.create 100 bobSecret 2 3

/-- The pool after that single deposit. -/
def poolBob : PoolState :=
  { name := "starknet-shielded-pool"
    notes := [(noteBob.commitment, noteBob)]
    nullifiers := []
    tree := ((NoteMerkleTree.new 16).insert noteBob.commitment).1 }

/-- A tiny full commitment tree (depth 0, its single slot taken), so that the
next insertion fails, and a pool holding one unspent 10-value note whose leaf
fills that tree: the shape a pool reaches when its tree capacity runs out. -/
def wFullTree : NoteMerkleTree := ⟨0, [some 5], 1, fun _ => none⟩

def wFullPool : PoolState := ⟨"w", [(5, wNote)], [], wFullTree⟩

/-- Export-readiness invariant maintained by every withdraw-free successful
run: stored notes have the recomputable encryption key, keys are distinct,
the tree has exactly one occupied slot per stored note out of its 2^16, and
the tree is the fold of inserting the stored notes' commitments in dict
order into a fresh depth-16 tree (which is how import_state rebuilds it). -/
def exportReady (st : PoolState) : Prop :=
  (∀ p ∈ st.notes, p.2.encryption_key = confEncryptionKey p.2.secret p.2.salt) ∧
  (st.notes.map Prod.fst).Nodup ∧
  st.tree.nextIndex = st.notes.length ∧
  st.tree.leaves.length = 2 ^ 16 ∧
  st.notes.length ≤ 2 ^ 16 ∧
  st.tree = st.notes.foldl (fun t p => (t.insert p.2.commitment).1) (NoteMerkleTree.new 16)

/-! ## Theorems. First, sanity: the embedded SHA-256 matches hashlib vectors -/

theorem sha256_empty_vector :
    Sha256.sha256 [] =
    0xe3b0c44298fc1c149afbf4c8996fb92427ae41e4649b934ca495991b7852b855 := by decide

theorem sha256_abc_vector :
    Sha256.sha256 [97, 98, 99] =
    0xba7816bf8f01cfea414140de5dae2223b00361a396177a9cb410ff61f20015ad := by decide

/-! ## NoteMerkleTree capacity lemmas -/

theorem NoteMerkleTree.insert_full {t : NoteMerkleTree} (c : Nat)
    (h : t.leaves.length ≤ t.nextIndex) :
    t.insert c = (t, .error (.valueError "Merkle tree is full")) := by
  simp [NoteMerkleTree.insert, h]

theorem NoteMerkleTree.insert_lt {t : NoteMerkleTree} (c : Nat)
    (h : t.nextIndex < t.leaves.length) :
    (t.insert c).2 = .ok t.nextIndex ∧
    (t.insert c).1.nextIndex = t.nextIndex + 1 ∧
    (t.insert c).1.leaves = t.leaves.set t.nextIndex (some c) ∧
    (t.insert c).1.depth = t.depth := by
  simp [NoteMerkleTree.insert, Nat.not_le.mpr h]

theorem NoteMerkleTree.insert_leaves_length (t : NoteMerkleTree) (c : Nat) :
    (t.insert c).1.leaves.length = t.leaves.length := by
  by_cases h : t.leaves.length ≤ t.nextIndex
  · rw [NoteMerkleTree.insert_full c h]
  · rw [(NoteMerkleTree.insert_lt c (Nat.not_le.mp h)).2.2.1]
    exact List.length_set ..

theorem NoteMerkleTree.insert_depth (t : NoteMerkleTree) (c : Nat) :
    (t.insert c).1.depth = t.depth := by
  by_cases h : t.leaves.length ≤ t.nextIndex
  · rw [NoteMerkleTree.insert_full c h]
  · exact (NoteMerkleTree.insert_lt c (Nat.not_le.mp h)).2.2.2

theorem NoteMerkleTree.insert_nextIndex_le (t : NoteMerkleTree) (c : Nat)
    (h : t.nextIndex ≤ t.leaves.length) :
    (t.insert c).1.nextIndex ≤ (t.insert c).1.leaves.length := by
  by_cases hlt : t.nextIndex < t.leaves.length
  · rw [(NoteMerkleTree.insert_lt c hlt).2.1, NoteMerkleTree.insert_leaves_length]
    exact hlt
  · rw [NoteMerkleTree.insert_full c (Nat.not_lt.mp hlt)]
    exact h

theorem insertTrace_append (t : NoteMerkleTree) (l1 l2 : List Nat) :
    insertTrace t (l1 ++ l2)
      = ((insertTrace (insertTrace t l1).1 l2).1,
         (insertTrace t l1).2 ++ (insertTrace (insertTrace t l1).1 l2).2) := by
  induction l1 generalizing t with
  | nil => simp [insertTrace]
  | cons c cs ih => simp [insertTrace, ih]

theorem insertTrace_ok (cs : List Nat) : ∀ t : NoteMerkleTree,
    t.nextIndex + cs.length ≤ t.leaves.length →
    (insertTrace t cs).2 = (List.range' t.nextIndex cs.length).map Except.ok ∧
    (insertTrace t cs).1.nextIndex = t.nextIndex + cs.length ∧
    (insertTrace t cs).1.leaves.length = t.leaves.length := by
  induction cs with
  | nil => intro t _; simp [insertTrace, List.range']
  | cons c cs ih =>
    intro t h
    have hlt : t.nextIndex < t.leaves.length := by
      have := h; simp [List.length_cons] at this; omega
    have hstep := NoteMerkleTree.insert_lt c hlt
    have hlen := NoteMerkleTree.insert_leaves_length t c
    have hrec := ih (t.insert c).1 (by rw [hstep.2.1, hlen]; simp at h ⊢; omega)
    refine ⟨?_, ?_, ?_⟩
    · simp only [insertTrace, hstep.1, hrec.1, hstep.2.1, List.range',
        List.length_cons, List.map_cons]
    · simp only [insertTrace, hrec.2.1, hstep.2.1, List.length_cons]; omega
    · simp only [insertTrace, hrec.2.2, hlen]

/-- C8: for a commitment tree of depth d, a run of 2 ^ d + 1 insertions has
the first 2 ^ d succeed with indices 0 .. 2 ^ d - 1 in order, and the last
fail with the capacity error ("Merkle tree is full", the TreeFullError kind),
leaving the whole tree — in particular its leaves and next_index — exactly as
after the 2 ^ d-th insertion. -/
theorem tree_exhaustion (d : Nat) (cs : List Nat) (h : cs.length = 2 ^ d + 1) :
    (insertTrace (NoteMerkleTree.new d) cs).2
        = (List.range (2 ^ d)).map Except.ok
          ++ [Except.error (PoolErr.valueError "Merkle tree is full")] ∧
    (insertTrace (NoteMerkleTree.new d) cs).1
        = (insertTrace (NoteMerkleTree.new d) (cs.take (2 ^ d))).1 ∧
    (insertTrace (NoteMerkleTree.new d) cs).1.nextIndex = 2 ^ d := by
  have hsplit : cs = cs.take (2 ^ d) ++ cs.drop (2 ^ d) := (List.take_append_drop _ _).symm
  have hlen1 : (cs.take (2 ^ d)).length = 2 ^ d := by
    rw [List.length_take]; omega
  have hlen2 : (cs.drop (2 ^ d)).length = 1 := by
    rw [List.length_drop]; omega
  obtain ⟨y, hy⟩ : ∃ y, cs.drop (2 ^ d) = [y] := by
    cases hdrop : cs.drop (2 ^ d) with
    | nil => rw [hdrop] at hlen2; simp at hlen2
    | cons a l =>
      rw [hdrop] at hlen2; simp at hlen2
      exact ⟨a, by simp [hlen2]⟩
  have hbase : (NoteMerkleTree.new d).leaves.length = 2 ^ d := by
    simp [NoteMerkleTree.new]
  have hfirst := insertTrace_ok (cs.take (2 ^ d)) (NoteMerkleTree.new d)
    (by simp [NoteMerkleTree.new, hlen1])
  have hfull : (insertTrace (NoteMerkleTree.new d) (cs.take (2 ^ d))).1.leaves.length
      ≤ (insertTrace (NoteMerkleTree.new d) (cs.take (2 ^ d))).1.nextIndex := by
    rw [hfirst.2.1, hfirst.2.2, hbase, hlen1]
    simp [NoteMerkleTree.new]
  have hlast := NoteMerkleTree.insert_full y hfull
  refine ⟨?_, ?_, ?_⟩
  · conv in insertTrace _ cs => rw [hsplit, hy]
    rw [insertTrace_append, hfirst.1]
    simp only [insertTrace, hlast]
    simp [NoteMerkleTree.new, hlen1, List.range_eq_range']
  · conv in (insertTrace _ cs) => rw [hsplit, hy]
    rw [insertTrace_append]
    simp only [insertTrace, hlast]
  · conv in (insertTrace _ cs) => rw [hsplit, hy]
    rw [insertTrace_append]
    simp only [insertTrace, hlast]
    rw [hfirst.2.1, hlen1]
    simp [NoteMerkleTree.new]

/-- Witness for C8 at depth 1 with three concrete insertions. -/
theorem tree_exhaustion_witness :
    ([5, 6, 7] : List Nat).length = 2 ^ 1 + 1 ∧
    ((insertTrace (NoteMerkleTree.new 1) [5, 6, 7]).2
        = (List.range (2 ^ 1)).map Except.ok
          ++ [Except.error (PoolErr.valueError "Merkle tree is full")] ∧
     (insertTrace (NoteMerkleTree.new 1) [5, 6, 7]).1
        = (insertTrace (NoteMerkleTree.new 1) ([5, 6, 7].take (2 ^ 1))).1 ∧
     (insertTrace (NoteMerkleTree.new 1) [5, 6, 7]).1.nextIndex = 2 ^ 1) :=
  ⟨by decide, tree_exhaustion 1 [5, 6, 7] (by decide)⟩

/-! ## Association-list (Python dict) lemmas -/

theorem notesFind_eq_none {m : List (Nat × ConfidentialNote)} {k : Nat} :
    notesFind m k = none ↔ k ∉ m.map Prod.fst := by
  induction m with
  | nil => simp [notesFind]
  | cons p rest ih =>
    obtain ⟨k', v'⟩ := p
    by_cases hk : k' = k
    · subst hk; simp [notesFind]
    · simp [notesFind, hk, ih, Ne.symm hk]

theorem notesSet_absent {m : List (Nat × ConfidentialNote)} {k : Nat}
    (v : ConfidentialNote) (h : notesFind m k = none) :
    notesSet m k v = m ++ [(k, v)] := by
  induction m with
  | nil => simp [notesSet]
  | cons p rest ih =>
    obtain ⟨k', v'⟩ := p
    by_cases hk : k' = k
    · subst hk; simp [notesFind] at h
    · simp only [notesFind, if_neg hk] at h
      simp [notesSet, hk, ih h]

theorem notesFind_notesSet {m : List (Nat × ConfidentialNote)} {k q : Nat}
    {v : ConfidentialNote} :
    notesFind (notesSet m k v) q = if q = k then some v else notesFind m q := by
  induction m with
  | nil => by_cases hq : q = k <;> simp [notesSet, notesFind, hq, Ne.symm]
  | cons p rest ih =>
    obtain ⟨k', v'⟩ := p
    by_cases hk : k' = k
    · subst hk
      by_cases hq : q = k' <;> simp [notesSet, notesFind, hq, Ne.symm]
    · by_cases hq : q = k'
      · subst hq
        simp [notesSet, notesFind, hk]
      · simp [notesSet, hk, notesFind, Ne.symm, hq, ih]

theorem notesSet_keys_present {m : List (Nat × ConfidentialNote)} {k : Nat}
    {w : ConfidentialNote} (v : ConfidentialNote) (h : notesFind m k = some w) :
    (notesSet m k v).map Prod.fst = m.map Prod.fst := by
  induction m with
  | nil => simp [notesFind] at h
  | cons p rest ih =>
    obtain ⟨k', v'⟩ := p
    by_cases hk : k' = k
    · subst hk; simp [notesSet]
    · simp only [notesFind, if_neg hk] at h
      simp [notesSet, hk, ih h]

theorem notesErase_sublist (m : List (Nat × ConfidentialNote)) (k : Nat) :
    List.Sublist (notesErase m k) m := by
  induction m with
  | nil => simp [notesErase]
  | cons p rest ih =>
    obtain ⟨k', v'⟩ := p
    by_cases hk : k' = k
    · simp [notesErase, hk]
    · simpa [notesErase, hk] using ih.cons₂ (k', v')

theorem sum_notesErase {m : List (Nat × ConfidentialNote)} {k : Nat} {v : ConfidentialNote}
    (hnd : (m.map Prod.fst).Nodup) (hf : notesFind m k = some v) :
    (((notesErase m k).map (fun p => p.2.value)).sum) + v.value
      = (m.map (fun p => p.2.value)).sum := by
  induction m with
  | nil => simp [notesFind] at hf
  | cons p rest ih =>
    obtain ⟨k', v'⟩ := p
    by_cases hk : k' = k
    · subst hk
      simp only [notesFind] at hf
      simp at hf
      subst hf
      simp [notesErase, Nat.add_comm]
    · simp only [notesFind, if_neg hk] at hf
      simp only [List.map_cons, List.nodup_cons] at hnd
      have := ih hnd.2 hf
      simp [notesErase, hk, ← this]
      omega

theorem filter_sum_notesErase {m : List (Nat × ConfidentialNote)} {k : Nat}
    {v : ConfidentialNote} (p : Nat × ConfidentialNote → Bool)
    (hnd : (m.map Prod.fst).Nodup) (hf : notesFind m k = some v) (hp : p (k, v) = false) :
    ((notesErase m k).filter p).map (fun q => q.2.value)
      = (m.filter p).map (fun q => q.2.value) := by
  induction m with
  | nil => simp [notesFind] at hf
  | cons q rest ih =>
    obtain ⟨k', v'⟩ := q
    by_cases hk : k' = k
    · subst hk
      simp only [notesFind] at hf
      simp at hf
      subst hf
      simp [notesErase, List.filter_cons, hp]
    · simp only [notesFind, if_neg hk] at hf
      simp only [List.map_cons, List.nodup_cons] at hnd
      by_cases hp' : p (k', v') = true <;>
        simp [notesErase, hk, List.filter_cons, hp', ih hnd.2 hf]

theorem mem_nullAdd {l : List Nat} {n x : Nat} : x ∈ nullAdd l n ↔ x ∈ l ∨ x = n := by
  by_cases h : n ∈ l
  · simp only [nullAdd, if_pos h]
    constructor
    · exact Or.inl
    · rintro (hx | rfl)
      · exact hx
      · exact h
  · simp [nullAdd, if_neg h]

theorem mem_foldl_nullAdd (l : List Nat) : ∀ (acc : List Nat) (x : Nat),
    x ∈ l.foldl nullAdd acc ↔ x ∈ acc ∨ x ∈ l := by
  induction l with
  | nil => simp
  | cons n rest ih =>
    intro acc x
    simp only [List.foldl_cons, ih, mem_nullAdd, List.mem_cons]
    tauto

/-! ## Covering-sum bridge: summing get_balance over a covering set of
secrets equals the sum of all stored note values -/

theorem sum_if_single {S : List Nat} {a v : Nat} (hnd : S.Nodup) (ha : a ∈ S) :
    (S.map (fun s => if a = s then v else 0)).sum = v := by
  induction S with
  | nil => simp at ha
  | cons s rest ih =>
    simp only [List.nodup_cons] at hnd
    by_cases hs : a = s
    · subst hs
      have hzero : (rest.map (fun s => if a = s then v else 0)).sum = 0 := by
        apply List.sum_eq_zero
        intro x hx
        simp only [List.mem_map] at hx
        obtain ⟨s', hs', rfl⟩ := hx
        have hne : a ≠ s' := by
          intro h
          subst h
          exact hnd.1 hs'
        simp [hne]
      simp [hzero]
    · have ha' : a ∈ rest := by
        rcases List.mem_cons.mp ha with h | h
        · exact absurd h hs
        · exact h
      simp [hs, ih hnd.2 ha']

theorem covering_filter_sum (notes : List (Nat × ConfidentialNote)) :
    ∀ S : List Nat, S.Nodup → (∀ p ∈ notes, p.2.secret ∈ S) →
    (S.map (fun s =>
        ((notes.filter (fun p => p.2.secret == s)).map (fun p => p.2.value)).sum)).sum
      = (notes.map (fun p => p.2.value)).sum := by
  induction notes with
  | nil => intro S _ _; simp
  | cons p rest ih =>
    intro S hnd hcov
    have hmem : p.2.secret ∈ S := hcov p (List.mem_cons_self p rest)
    have hrest := ih S hnd (fun q hq => hcov q (List.mem_cons_of_mem p hq))
    have hsplit : ∀ s : Nat,
        (((p :: rest).filter (fun q => q.2.secret == s)).map (fun q => q.2.value)).sum
          = (if p.2.secret = s then p.2.value else 0) +
            ((rest.filter (fun q => q.2.secret == s)).map (fun q => q.2.value)).sum := by
      intro s
      by_cases hs : p.2.secret = s
      · simp [List.filter_cons, hs]
      · simp [List.filter_cons, hs]
    calc (S.map (fun s =>
            (((p :: rest).filter (fun q => q.2.secret == s)).map (fun q => q.2.value)).sum)).sum
        = (S.map (fun s => (if p.2.secret = s then p.2.value else 0) +
            ((rest.filter (fun q => q.2.secret == s)).map (fun q => q.2.value)).sum)).sum := by
          congr 1
          exact List.map_congr_left (fun s _ => hsplit s)
      _ = (S.map (fun s => if p.2.secret = s then p.2.value else 0)).sum +
          (S.map (fun s =>
            ((rest.filter (fun q => q.2.secret == s)).map (fun q => q.2.value)).sum)).sum := by
          rw [← List.sum_map_add]
      _ = p.2.value + (rest.map (fun q => q.2.value)).sum := by
          rw [sum_if_single hnd hmem, hrest]
      _ = ((p :: rest).map (fun q => q.2.value)).sum := by simp

theorem covering_balance_sum (st : PoolState) (S : List Nat) (hnd : S.Nodup)
    (hcov : ∀ p ∈ st.notes, p.2.secret ∈ S) :
    (S.map (fun s => (ShieldedPool.getBalance st s).totalBalance)).sum = totalValue st := by
  simpa [ShieldedPool.getBalance, totalValue] using covering_filter_sum st.notes S hnd hcov

/-! ## Shape lemmas for the three pool operations -/

theorem deposit_zero (st : PoolState) (s sl ns : Nat) :
    ShieldedPool.deposit st 0 s sl ns
      = (st, .error (.valueError "Amount must be positive")) := by
  simp [ShieldedPool.deposit]

theorem createTransfer_notFound {st : PoolState} {c : Nat} (addr : String)
    (a s c1 c2 r1 r2 : Nat) (h : notesFind st.notes c = none) :
    ShieldedPool.createTransfer st c addr a s c1 c2 r1 r2
      = (st, .error (.noteNotFound c)) := by
  simp [ShieldedPool.createTransfer, h]

theorem createTransfer_insufficient {st : PoolState} {c : Nat} {note : ConfidentialNote}
    (addr : String) {a : Nat} (s c1 c2 r1 r2 : Nat)
    (hfind : notesFind st.notes c = some note) (hval : note.value < a) :
    ShieldedPool.createTransfer st c addr a s c1 c2 r1 r2
      = (st, .error (.insufficientBalance note.value a)) := by
  simp [ShieldedPool.createTransfer, hfind, hval]

theorem createTransfer_alreadySpent {st : PoolState} {c : Nat} {note : ConfidentialNote}
    (addr : String) {a : Nat} (s c1 c2 r1 r2 : Nat)
    (hfind : notesFind st.notes c = some note) (hval : ¬ note.value < a)
    (hnul : note.nullifier ∈ st.nullifiers) :
    ShieldedPool.createTransfer st c addr a s c1 c2 r1 r2
      = (st, .error (.alreadySpent note.nullifier)) := by
  simp [ShieldedPool.createTransfer, hfind, hval, hnul]

theorem withdraw_notFound {st : PoolState} {c : Nat} (s : Nat) (addr : String)
    (h : notesFind st.notes c = none) :
    ShieldedPool.withdraw st c s addr = (st, .error (.noteNotFound c)) := by
  simp [ShieldedPool.withdraw, h]

theorem withdraw_alreadySpent {st : PoolState} {c : Nat} {note : ConfidentialNote}
    (s : Nat) (addr : String) (hfind : notesFind st.notes c = some note)
    (hnul : note.nullifier ∈ st.nullifiers) :
    ShieldedPool.withdraw st c s addr = (st, .error (.alreadySpent note.nullifier)) := by
  simp [ShieldedPool.withdraw, hfind, hnul]

theorem deposit_ok_cases {st : PoolState} {a s sl ns : Nat} {st' : PoolState}
    {rec : DepositReceipt}
    (h : ShieldedPool.deposit st a s sl ns = (st', .ok rec)) :
    a ≠ 0 ∧ rec.amount = a ∧ rec.note = ConfidentialNote.create a s sl ns ∧
    st.tree.nextIndex < st.tree.leaves.length ∧
    st'.notes = notesSet st.notes (ConfidentialNote.create a s sl ns).commitment
        (ConfidentialNote.create a s sl ns) ∧
    st'.nullifiers = st.nullifiers ∧
    st'.tree = (st.tree.insert (ConfidentialNote.create a s sl ns).commitment).1 ∧
    st'.name = st.name := by
  by_cases ha : a = 0
  · simp [ShieldedPool.deposit, ha] at h
  · simp only [ShieldedPool.deposit, ha, if_false] at h
    cases hins : st.tree.insert (ConfidentialNote.create a s sl ns).commitment with
    | mk t' r =>
      rw [hins] at h
      cases r with
      | error e => simp at h
      | ok index =>
        simp only [Prod.mk.injEq, Except.ok.injEq] at h
        obtain ⟨hst, hrec⟩ := h
        have hlt : st.tree.nextIndex < st.tree.leaves.length := by
          by_contra hge
          rw [NoteMerkleTree.insert_full _ (Nat.not_lt.mp hge)] at hins
          simp at hins
        refine ⟨ha, ?_, ?_, hlt, ?_, ?_, ?_, ?_⟩ <;>
          simp [← hst, ← hrec, hins]

theorem withdraw_ok_cases {st : PoolState} {c s : Nat} {addr : String} {st' : PoolState}
    {rec : WithdrawReceipt}
    (h : ShieldedPool.withdraw st c s addr = (st', .ok rec)) :
    ∃ note : ConfidentialNote,
      notesFind st.notes c = some note ∧ note.nullifier ∉ st.nullifiers ∧
      note.secret = s ∧ rec.amount = note.value ∧
      rec.nullifierPublished = note.nullifier ∧
      st'.notes = notesErase st.notes c ∧
      st'.nullifiers = nullAdd st.nullifiers note.nullifier ∧
      st'.tree = st.tree ∧ st'.name = st.name := by
  cases hfind : notesFind st.notes c with
  | none =>
    rw [withdraw_notFound s addr hfind] at h
    simp at h
  | some note =>
    simp only [ShieldedPool.withdraw, hfind] at h
    by_cases hnul : note.nullifier ∈ st.nullifiers
    · simp [hnul] at h
    · rw [if_neg hnul] at h
      by_cases hsec : note.secret = s
      · rw [if_neg (by simp [hsec])] at h
        cases hidx : pyListIndex st.tree.leaves note.commitment with
        | none => rw [hidx] at h; simp at h
        | some index =>
          simp only [hidx] at h
          cases hproof : st.tree.getProof index with
          | error e => simp [hproof] at h
          | ok proof =>
            simp only [hproof] at h
            simp only [Prod.mk.injEq, Except.ok.injEq] at h
            obtain ⟨hst, hrec⟩ := h
            exact ⟨note, rfl, hnul, hsec, by simp [← hrec], by simp [← hrec],
                   by simp [← hst], by simp [← hst], by simp [← hst], by simp [← hst]⟩
      · rw [if_pos (by simp [hsec])] at h
        simp at h

theorem createTransfer_ok_cases {st : PoolState} {c : Nat} {addr : String}
    {a s c1 c2 r1 r2 : Nat} {st' : PoolState} {rec : TransferReceipt}
    (h : ShieldedPool.createTransfer st c addr a s c1 c2 r1 r2 = (st', .ok rec)) :
    ∃ (note : ConfidentialNote) (index : Nat) (proof : MerkleProof),
      notesFind st.notes c = some note ∧
      ¬ note.value < a ∧
      note.nullifier ∉ st.nullifiers ∧
      pyListIndex st.tree.leaves note.commitment = some index ∧
      st.tree.getProof index = .ok proof ∧
      rec.fromNote = note ∧ rec.amountTransferred = a ∧
      rec.nullifierPublished = note.nullifier ∧
      rec.toNote = ConfidentialNote.create a (recipientSecretOf addr) r1 r2 ∧
      st'.name = st.name ∧
      st'.nullifiers = nullAdd st.nullifiers note.nullifier ∧
      ((0 < note.value - a ∧
        rec.changeNote = some (ConfidentialNote.create (note.value - a) s c1 c2) ∧
        (st.tree.insert (ConfidentialNote.create (note.value - a) s c1 c2).commitment).2
          = .ok st.tree.nextIndex ∧
        st'.tree = (((st.tree.insert
            (ConfidentialNote.create (note.value - a) s c1 c2).commitment).1).insert
            (ConfidentialNote.create a (recipientSecretOf addr) r1 r2).commitment).1 ∧
        (((st.tree.insert
            (ConfidentialNote.create (note.value - a) s c1 c2).commitment).1).insert
            (ConfidentialNote.create a (recipientSecretOf addr) r1 r2).commitment).2
          = .ok ((st.tree.insert
            (ConfidentialNote.create (note.value - a) s c1 c2).commitment).1).nextIndex ∧
        st'.notes = notesSet
          (notesSet st.notes (ConfidentialNote.create (note.value - a) s c1 c2).commitment
            (ConfidentialNote.create (note.value - a) s c1 c2))
          (ConfidentialNote.create a (recipientSecretOf addr) r1 r2).commitment
          (ConfidentialNote.create a (recipientSecretOf addr) r1 r2))
       ∨ (note.value - a = 0 ∧ rec.changeNote = none ∧
        (st.tree.insert
            (ConfidentialNote.create a (recipientSecretOf addr) r1 r2).commitment).2
          = .ok st.tree.nextIndex ∧
        st'.tree = (st.tree.insert
            (ConfidentialNote.create a (recipientSecretOf addr) r1 r2).commitment).1 ∧
        st'.notes = notesSet st.notes
          (ConfidentialNote.create a (recipientSecretOf addr) r1 r2).commitment
          (ConfidentialNote.create a (recipientSecretOf addr) r1 r2))) := by
  cases hfind : notesFind st.notes c with
  | none =>
    rw [createTransfer_notFound addr a s c1 c2 r1 r2 hfind] at h
    simp at h
  | some note =>
    simp only [ShieldedPool.createTransfer, hfind] at h
    by_cases hval : note.value < a
    · simp [hval] at h
    · rw [if_neg hval] at h
      by_cases hnul : note.nullifier ∈ st.nullifiers
      · simp [hnul] at h
      · rw [if_neg hnul] at h
        cases hidx : pyListIndex st.tree.leaves note.commitment with
        | none => simp [hidx] at h
        | some index =>
          simp only [hidx] at h
          cases hproof : st.tree.getProof index with
          | error e => simp [hproof] at h
          | ok proof =>
            simp only [hproof] at h
            by_cases hch : 0 < note.value - a
            · rw [if_pos hch] at h
              cases hins1 : st.tree.insert
                  (ConfidentialNote.create (note.value - a) s c1 c2).commitment with
              | mk t1 q1 =>
                simp only [hins1] at h
                cases q1 with
                | error e1 => simp at h
                | ok i1 =>
                  cases hins2 : t1.insert
                      (ConfidentialNote.create a (recipientSecretOf addr) r1 r2).commitment with
                  | mk t2 q2 =>
                    simp only [hins2] at h
                    cases q2 with
                    | error e2 => simp at h
                    | ok i2 =>
                      simp only [Prod.mk.injEq, Except.ok.injEq] at h
                      obtain ⟨hst, hrec⟩ := h
                      have hi1 : i1 = st.tree.nextIndex := by
                        by_cases hge : st.tree.leaves.length ≤ st.tree.nextIndex
                        · rw [NoteMerkleTree.insert_full _ hge] at hins1; simp at hins1
                        · have := (NoteMerkleTree.insert_lt
                            (ConfidentialNote.create (note.value - a) s c1 c2).commitment
                            (Nat.not_le.mp hge)).1
                          rw [hins1] at this; simp at this; omega
                      have hi2 : i2 = t1.nextIndex := by
                        by_cases hge : t1.leaves.length ≤ t1.nextIndex
                        · rw [NoteMerkleTree.insert_full _ hge] at hins2; simp at hins2
                        · have := (NoteMerkleTree.insert_lt
                            (ConfidentialNote.create a (recipientSecretOf addr) r1 r2).commitment
                            (Nat.not_le.mp hge)).1
                          rw [hins2] at this; simp at this; omega
                      refine ⟨note, index, proof, rfl, hval, hnul, hidx, hproof,
                        by simp [← hrec], by simp [← hrec], by simp [← hrec],
                        by simp [← hrec], by simp [← hst], by simp [← hst],
                        Or.inl ⟨hch, by simp [← hrec], ?_, ?_, ?_, by simp [← hst]⟩⟩
                      · rw [hins1]
                        simp [hi1]
                      · simp [hins1, hins2, ← hst]
                      · simp [hins1, hins2, hi2]
            · rw [if_neg hch] at h
              cases hins1 : st.tree.insert
                  (ConfidentialNote.create a (recipientSecretOf addr) r1 r2).commitment with
              | mk t1 q1 =>
                simp only [hins1] at h
                cases q1 with
                | error e1 => simp at h
                | ok i1 =>
                  simp only [Prod.mk.injEq, Except.ok.injEq] at h
                  obtain ⟨hst, hrec⟩ := h
                  have hi1 : i1 = st.tree.nextIndex := by
                    by_cases hge : st.tree.leaves.length ≤ st.tree.nextIndex
                    · rw [NoteMerkleTree.insert_full _ hge] at hins1; simp at hins1
                    · have := (NoteMerkleTree.insert_lt
                        (ConfidentialNote.create a (recipientSecretOf addr) r1 r2).commitment
                        (Nat.not_le.mp hge)).1
                      rw [hins1] at this; simp at this; omega
                  refine ⟨note, index, proof, rfl, hval, hnul, hidx, hproof,
                    by simp [← hrec], by simp [← hrec], by simp [← hrec],
                    by simp [← hrec], by simp [← hst], by simp [← hst],
                    Or.inr ⟨Nat.eq_zero_of_not_pos hch, by simp [← hrec], ?_, ?_, ?_⟩⟩
                  · simp [hi1]
                  · simp [← hst]
                  · simp [← hst]

/-! ## Claim C7: failure precedence of create_transfer -/

/-- C7 (amended): create_transfer checks its failure modes in the source
order NoteNotFoundError, then InsufficientBalanceError, then
NoteAlreadySpentError — not the claimed NoteNotFound, AlreadySpent,
InsufficientBalance order. Consequently a transfer naming an already-spent
note with an amount exceeding its value fails with InsufficientBalanceError.
Each of the three failures returns the state unchanged. -/
theorem transfer_error_precedence (st : PoolState) (c : Nat) (addr : String)
    (a s c1 c2 r1 r2 : Nat) :
    (notesFind st.notes c = none →
      ShieldedPool.createTransfer st c addr a s c1 c2 r1 r2
        = (st, .error (.noteNotFound c))) ∧
    (∀ note, notesFind st.notes c = some note → note.value < a →
      ShieldedPool.createTransfer st c addr a s c1 c2 r1 r2
        = (st, .error (.insufficientBalance note.value a))) ∧
    (∀ note, notesFind st.notes c = some note → ¬ note.value < a →
      note.nullifier ∈ st.nullifiers →
      ShieldedPool.createTransfer st c addr a s c1 c2 r1 r2
        = (st, .error (.alreadySpent note.nullifier))) :=
  ⟨fun h => createTransfer_notFound addr a s c1 c2 r1 r2 h,
   fun _ hf hv => createTransfer_insufficient addr s c1 c2 r1 r2 hf hv,
   fun _ hf hv hn => createTransfer_alreadySpent addr s c1 c2 r1 r2 hf hv hn⟩

/-- Witness for C7: on a concrete pool whose only note (value 10, commitment
key 5, nullifier 77) is already spent, an unknown commitment gives
NoteNotFoundError, an excessive amount gives InsufficientBalanceError even
though the note is spent, and an affordable amount gives AlreadySpentError. -/
theorem transfer_error_precedence_witness :
    (ShieldedPool.createTransfer emptyPool 5 "0xbob" 1 1 0 0 0 0
        = (emptyPool, .error (.noteNotFound 5))) ∧
    (ShieldedPool.createTransfer wSpentPool 5 "0xbob" 20 1 0 0 0 0
        = (wSpentPool, .error (.insufficientBalance 10 20))) ∧
    (ShieldedPool.createTransfer wSpentPool 5 "0xbob" 10 1 0 0 0 0
        = (wSpentPool, .error (.alreadySpent 77))) :=
  ⟨(transfer_error_precedence emptyPool 5 "0xbob" 1 1 0 0 0 0).1 (by decide),
   (transfer_error_precedence wSpentPool 5 "0xbob" 20 1 0 0 0 0).2.1 wNote (by decide)
     (by decide),
   (transfer_error_precedence wSpentPool 5 "0xbob" 10 1 0 0 0 0).2.2 wNote (by decide)
     (by decide) (by decide)⟩

/-! ## Claim C2: no-double-spend behaviour after a nullifier is published -/

/-- C2 (amended): once a note's nullifier is in the published set, a withdraw
naming that note fails with AlreadySpentError, and a transfer naming it fails
with AlreadySpentError provided the requested amount does not exceed the
note's value (an excessive amount fails with InsufficientBalanceError first,
because the balance check precedes the spent check); both failing calls leave
the pool state — in particular the nullifier set and the note map —
unchanged. After a successful withdraw the note is removed from the map, so a
later call naming its commitment fails with NoteNotFoundError instead. -/
theorem no_double_spend_amended (st : PoolState) (c : Nat) (note : ConfidentialNote)
    (s : Nat) (addr : String) (a c1 c2 r1 r2 : Nat)
    (hfind : notesFind st.notes c = some note)
    (hnul : note.nullifier ∈ st.nullifiers) :
    ShieldedPool.withdraw st c s addr = (st, .error (.alreadySpent note.nullifier)) ∧
    (a ≤ note.value →
      ShieldedPool.createTransfer st c addr a s c1 c2 r1 r2
        = (st, .error (.alreadySpent note.nullifier))) ∧
    (∀ st' rec, ShieldedPool.withdraw st c s addr = (st', .ok rec) → False) :=
  ⟨withdraw_alreadySpent s addr hfind hnul,
   fun ha => createTransfer_alreadySpent addr s c1 c2 r1 r2 hfind (Nat.not_lt.mpr ha) hnul,
   fun _ rec hok => by
     obtain ⟨note', hfind', hnul', _⟩ := withdraw_ok_cases hok
     rw [hfind] at hfind'
     cases hfind'
     exact hnul' hnul⟩

/-- Witness for C2 (amended) on the concrete spent pool: both the withdraw
and the affordable transfer fail with AlreadySpentError for nullifier 77 and
leave the state unchanged. -/
theorem no_double_spend_amended_witness :
    (ShieldedPool.withdraw wSpentPool 5 7 "0xdd"
        = (wSpentPool, .error (.alreadySpent 77))) ∧
    (ShieldedPool.createTransfer wSpentPool 5 "0xbob" 10 7 0 0 0 0
        = (wSpentPool, .error (.alreadySpent 77))) :=
  ⟨(no_double_spend_amended wSpentPool 5 wNote 7 "0xdd" 10 0 0 0 0 (by decide)
      (by decide)).1,
   (no_double_spend_amended wSpentPool 5 wNote 7 "0xbob" 10 0 0 0 0 (by decide)
      (by decide)).2.1 (by decide)⟩

/-! ## Claim C6: atomicity of create_transfer on failure -/

theorem transferFailed_not_typed {e : PoolErr}
    (h : PoolErr.poolError "Transfer failed" = e)
    (he : (∃ cm, e = .noteNotFound cm) ∨ (∃ av rq, e = .insufficientBalance av rq) ∨
          (∃ n, e = .alreadySpent n) ∨ e = .poolError "Failed to generate merkle proof") :
    False := by
  subst h
  rcases he with ⟨cm, hcm⟩ | ⟨av, rq, hav⟩ | ⟨n, hn⟩ | hpe
  · exact PoolErr.noConfusion hcm
  · exact PoolErr.noConfusion hav
  · exact PoolErr.noConfusion hn
  · exact absurd (PoolErr.poolError.inj hpe) (by decide)

/-- C6 (amended): create_transfer is atomic only for its pre-mutation
failures. When it fails with NoteNotFoundError, InsufficientBalanceError,
NoteAlreadySpentError, or with the proof-generation ShieldedPoolError, the
pool state is returned exactly as it was. (A tree-insertion failure after
the nullifier-not-spent check passes is NOT atomic: the published nullifier —
and, when the change-note insertion succeeded first, the stored change note —
are retained; the counterexample theorem exhibits this on a full pool.) -/
theorem transfer_atomicity_amended (st : PoolState) (c : Nat) (addr : String)
    (a s c1 c2 r1 r2 : Nat) (e : PoolErr)
    (h : (ShieldedPool.createTransfer st c addr a s c1 c2 r1 r2).2 = .error e)
    (he : (∃ cm, e = .noteNotFound cm) ∨ (∃ av rq, e = .insufficientBalance av rq) ∨
          (∃ n, e = .alreadySpent n) ∨ e = .poolError "Failed to generate merkle proof") :
    (ShieldedPool.createTransfer st c addr a s c1 c2 r1 r2).1 = st := by
  cases hfind : notesFind st.notes c with
  | none => rw [createTransfer_notFound addr a s c1 c2 r1 r2 hfind]
  | some note =>
    by_cases hval : note.value < a
    · rw [createTransfer_insufficient addr s c1 c2 r1 r2 hfind hval]
    · by_cases hnul : note.nullifier ∈ st.nullifiers
      · rw [createTransfer_alreadySpent addr s c1 c2 r1 r2 hfind hval hnul]
      · simp only [ShieldedPool.createTransfer, hfind, if_neg hval, if_neg hnul] at h ⊢
        cases hidx : pyListIndex st.tree.leaves note.commitment with
        | none => simp [hidx]
        | some index =>
          simp only [hidx] at h ⊢
          cases hproof : st.tree.getProof index with
          | error e' => simp [hproof]
          | ok proof =>
            simp only [hproof] at h ⊢
            by_cases hch : 0 < note.value - a
            · simp only [if_pos hch] at h ⊢
              cases hins1 : st.tree.insert
                  (ConfidentialNote.create (note.value - a) s c1 c2).commitment with
              | mk t1 q1 =>
                simp only [hins1] at h ⊢
                cases q1 with
                | error e1 =>
                  have h2 : (Except.error (PoolErr.poolError "Transfer failed")
                      : Except PoolErr TransferReceipt) = Except.error e := h
                  exact (transferFailed_not_typed (Except.error.inj h2) he).elim
                | ok i1 =>
                  cases hins2 : t1.insert
                      (ConfidentialNote.create a (recipientSecretOf addr) r1 r2).commitment with
                  | mk t2 q2 =>
                    simp only [hins2] at h ⊢
                    cases q2 with
                    | error e2 =>
                      have h2 : (Except.error (PoolErr.poolError "Transfer failed")
                          : Except PoolErr TransferReceipt) = Except.error e := h
                      exact (transferFailed_not_typed (Except.error.inj h2) he).elim
                    | ok i2 => simp at h
            · simp only [if_neg hch] at h ⊢
              cases hins1 : st.tree.insert
                  (ConfidentialNote.create a (recipientSecretOf addr) r1 r2).commitment with
              | mk t1 q1 =>
                simp only [hins1] at h ⊢
                cases q1 with
                | error e1 =>
                  have h2 : (Except.error (PoolErr.poolError "Transfer failed")
                      : Except PoolErr TransferReceipt) = Except.error e := h
                  exact (transferFailed_not_typed (Except.error.inj h2) he).elim
                | ok i1 => simp at h

/-- Witness for C6 (amended): a transfer on the empty pool fails with
NoteNotFoundError and leaves the pool exactly as it was. -/
theorem transfer_atomicity_amended_witness :
    (ShieldedPool.createTransfer emptyPool 5 "0xbob" 1 1 0 0 0 0).2
        = .error (.noteNotFound 5) ∧
    (ShieldedPool.createTransfer emptyPool 5 "0xbob" 1 1 0 0 0 0).1 = emptyPool :=
  ⟨by rfl,
   transfer_atomicity_amended emptyPool 5 "0xbob" 1 1 0 0 0 0 (.noteNotFound 5)
     (by rfl) (Or.inl ⟨5, rfl⟩)⟩

/-! ## Claim C3: what get_balance actually sums -/

/-- C3 (amended): get_balance sums the value of every stored note whose
secret matches, with no nullifier filtering and no mutation (it is a pure
function of the state in this embedding, as in the source, which only reads
self.notes). It therefore decomposes as the spec's nullifier-aware balance
plus the values of already-spent notes that still sit in the dict — a note
spent by a transfer keeps contributing to the balance. -/
theorem getBalance_spent_unspent (st : PoolState) (s : Nat) :
    (ShieldedPool.getBalance st s).totalBalance
      = specBalanceUnspent st s + spentBalance st s := by
  suffices h : ∀ notes : List (Nat × ConfidentialNote),
      ((notes.filter (fun p => p.2.secret == s)).map (fun p => p.2.value)).sum
        = ((notes.filter (fun p => p.2.secret == s &&
              !(decide (p.2.nullifier ∈ st.nullifiers)))).map (fun p => p.2.value)).sum +
          ((notes.filter (fun p => p.2.secret == s &&
              decide (p.2.nullifier ∈ st.nullifiers))).map (fun p => p.2.value)).sum by
    simpa [ShieldedPool.getBalance, specBalanceUnspent, spentBalance] using h st.notes
  intro notes
  induction notes with
  | nil => simp
  | cons p rest ih =>
    by_cases hs : (p.2.secret == s) = true
    · by_cases hn : p.2.nullifier ∈ st.nullifiers
      · simp [List.filter_cons, hs, hn, ih]
        omega
      · simp [List.filter_cons, hs, hn, ih]
        omega
    · simp only [Bool.not_eq_true] at hs
      simp [List.filter_cons, hs, ih]

/-! ## Claim C4: commitment and nullifier derivation formulas -/

/-- C4 (amended): the pool's notes (ConfidentialNote of notes.py) derive
commitment = sha256 of the string value:secret:salt reduced mod 2^251 — a
single three-part hash, not the nested two-argument form — and
nullifier = sha256 of the string commitment:nullifier_salt mod 2^251, which
depends on the extra nullifier_salt field; recomputing from the stored fields
reproduces the stored values. The spec's nested formulas
C = H(value, H(secret, salt)) and N = H(secret, salt) hold instead for the
Note class of merkle_tree.py with H = PedersenHasher.hash. -/
theorem note_derivation_formulas (v s salt nsalt : Nat) :
    (ConfidentialNote.create v s salt nsalt).commitment = confCommitment v s salt ∧
    (ConfidentialNote.create v s salt nsalt).nullifier
      = confNullifier (confCommitment v s salt) nsalt ∧
    (ConfidentialNote.create v s salt nsalt).nullifier
      = confNullifier (ConfidentialNote.create v s salt nsalt).commitment
          (ConfidentialNote.create v s salt nsalt).nullifier_salt ∧
    (ConfidentialNote.create v s salt nsalt).encryption_key = confEncryptionKey s salt ∧
    (MTNote.create v s salt).commitment = pedersenHash v (pedersenHash s salt) ∧
    (MTNote.create v s salt).nullifier = pedersenHash s salt ∧
    MTNote.computeCommitmentOf (MTNote.create v s salt).value
        (MTNote.create v s salt).secret (MTNote.create v s salt).salt
      = (MTNote.create v s salt).commitment ∧
    MTNote.computeNullifierOf (MTNote.create v s salt).secret
        (MTNote.create v s salt).salt
      = (MTNote.create v s salt).nullifier :=
  ⟨rfl, rfl, rfl, rfl, rfl, rfl, rfl, rfl⟩

/-! ## Claim C5: Merkle round-trip machinery -/

theorem mtInsertLoop_single (steps : Nat) :
    ∀ (treeD : Nat → Nat → Option Nat) (cur level : Nat),
    (∀ l, treeD l 1 = none) →
    (∀ l, (mtInsertLoop treeD cur 0 level steps).1 l 1 = none) ∧
    (0 < steps →
      (mtInsertLoop treeD cur 0 level steps).1 (level + steps - 1) 0
        = some (hashZeroIter cur steps)) ∧
    (steps = 0 → (mtInsertLoop treeD cur 0 level steps).1 = treeD) := by
  induction steps with
  | zero => intro treeD cur level hmiss; exact ⟨hmiss, by omega, fun _ => rfl⟩
  | succ k ih =>
    intro treeD cur level hmiss
    have hsib : (treeD (level - 1) 1).getD 0 = 0 := by
      simp [hmiss (level - 1)]
    have hcur : (if (0 : Nat) % 2 == 0 then pedersenHash cur ((treeD (level - 1) (0 ^^^ 1)).getD 0)
        else pedersenHash ((treeD (level - 1) (0 ^^^ 1)).getD 0) cur) = pedersenHash cur 0 := by
      simp [hsib]
    have hmiss' : ∀ l, updD2 treeD level 0 (pedersenHash cur 0) l 1 = none := by
      intro l
      simp only [updD2]
      by_cases hl : l = level
      · subst hl
        simp [hmiss l]
      · simp [hl, hmiss l]
    have hrec := ih (updD2 treeD level 0 (pedersenHash cur 0)) (pedersenHash cur 0) (level + 1)
      hmiss'
    have hloop : (mtInsertLoop treeD cur 0 level (k + 1)).1
        = (mtInsertLoop (updD2 treeD level 0 (pedersenHash cur 0))
            (pedersenHash cur 0) 0 (level + 1) k).1 := by
      simp only [mtInsertLoop, hcur]
    refine ⟨?_, ?_, by omega⟩
    · intro l
      rw [hloop]
      exact hrec.1 l
    · intro _
      rw [hloop]
      cases k with
      | zero =>
        rw [hrec.2.2 rfl]
        simp only [updD2]
        simp [hashZeroIter]
      | succ k' =>
        have := hrec.2.1 (by omega)
        have harith : level + 1 + (k' + 1) - 1 = level + (k' + 1 + 1) - 1 := by omega
        rw [harith] at this
        rw [this]
        simp [hashZeroIter]

theorem mtProofAux_single (steps : Nat) (leavesD : Nat → Option Nat)
    (hmiss : leavesD 1 = none) :
    mtProofAux leavesD 0 steps = List.replicate steps (0, true) := by
  induction steps with
  | zero => rfl
  | succ k ih => simp [mtProofAux, hmiss, List.replicate, ih]

theorem verify_replicate_zero (root c : Nat) : ∀ steps : Nat,
    verifyMerkleProof c (List.replicate steps (0, true)) root
      = (hashZeroIter c steps == root) := by
  intro steps
  induction steps generalizing c with
  | zero => rfl
  | succ k ih => simp [verifyMerkleProof, List.replicate, hashZeroIter, ← ih,
      List.foldl_cons]

/-- C5 (amended): the claimed leaf/proof/root round-trip holds for the sparse
MerkleTree of merkle_tree.py in the single-leaf case: after inserting the
first commitment into a fresh tree of any height, verify_merkle_proof accepts
get_proof(0) against the current root. (For the pool's NoteMerkleTree of
notes.py, whose verifier ignores the recorded side and whose root is read
from heap position 1, the round-trip fails already for the first inserted
leaf — see the counterexample theorem.) -/
theorem merkle_single_leaf_roundtrip (h c : Nat) :
    verifyMerkleProof c (((MerkleTree.new h).insert c).1.getProof 0)
      (((MerkleTree.new h).insert c).1.getRoot) = true := by
  have hproof : ((MerkleTree.new h).insert c).1.getProof 0
      = List.replicate h (0, true) := by
    simp only [MerkleTree.insert, MerkleTree.getProof, MerkleTree.new]
    exact mtProofAux_single h _ (by simp [updD])
  have hmiss0 : ∀ l, updD2 (fun _ _ => none) 0 0 c l 1 = none := by
    intro l
    simp only [updD2]
    by_cases hl : l = 0 <;> simp [hl]
  have hroot : ((MerkleTree.new h).insert c).1.getRoot = hashZeroIter c h := by
    cases h with
    | zero =>
      simp only [MerkleTree.insert, MerkleTree.getRoot, MerkleTree.new]
      rw [(mtInsertLoop_single 0 _ c 1 hmiss0).2.2 rfl]
      simp [updD2, hashZeroIter]
    | succ k =>
      simp only [MerkleTree.insert, MerkleTree.getRoot, MerkleTree.new]
      have := (mtInsertLoop_single (k + 1) (updD2 (fun _ _ => none) 0 0 c) c 1 hmiss0).2.1
        (by omega)
      have harith : 1 + (k + 1) - 1 = k + 1 := by omega
      rw [harith] at this
      rw [this]
      rfl
  rw [hproof, hroot, verify_replicate_zero]
  simp

/-! ## Claim C1: accounting over operation sequences -/

theorem runAcc_fst (ops : List PoolOp) : ∀ st : PoolState,
    (runAcc st ops).1 = runOps st ops := by
  induction ops with
  | nil => intro st; rfl
  | cons op ops ih =>
    intro st
    have hops : runOps st (op :: ops) = runOps (applyOp st op) ops := by
      simp [runOps]
    rw [hops, ← ih]
    cases op <;> simp only [runAcc] <;> (split <;> rfl)

theorem notesSet_value_sum_absent {m : List (Nat × ConfidentialNote)} {k : Nat}
    (v : ConfidentialNote) (h : notesFind m k = none) :
    ((notesSet m k v).map (fun p => p.2.value)).sum
      = (m.map (fun p => p.2.value)).sum + v.value := by
  rw [notesSet_absent v h]
  simp

theorem notesSet_keys_nodup_absent {m : List (Nat × ConfidentialNote)} {k : Nat}
    (v : ConfidentialNote) (h : notesFind m k = none)
    (hnd : (m.map Prod.fst).Nodup) :
    ((notesSet m k v).map Prod.fst).Nodup := by
  rw [notesSet_absent v h]
  simp only [List.map_append, List.map_cons, List.map_nil]
  rw [List.nodup_append]
  refine ⟨hnd, List.nodup_singleton k, ?_⟩
  intro x hx hx'
  simp only [List.mem_singleton] at hx'
  subst hx'
  exact (notesFind_eq_none.mp h) hx

theorem runAcc_conservation (ops : List PoolOp) : ∀ st : PoolState,
    (st.notes.map Prod.fst).Nodup → okRun st ops = true →
    (((runAcc st ops).1.notes.map Prod.fst).Nodup ∧
     totalValue (runAcc st ops).1 + (runAcc st ops).2.2.1
       = totalValue st + (runAcc st ops).2.1 + (runAcc st ops).2.2.2) := by
  induction ops with
  | nil => intro st hnd _; exact ⟨hnd, by simp [runAcc]⟩
  | cons op ops ih =>
    intro st hnd hok
    simp only [okRun, Bool.and_eq_true] at hok
    obtain ⟨hop, hrest⟩ := hok
    cases op with
    | dep a s sl ns =>
      simp only [okOp, Bool.and_eq_true] at hop
      obtain ⟨hisok, hfresh⟩ := hop
      cases hdep : ShieldedPool.deposit st a s sl ns with
      | mk st1 r =>
        cases r with
        | error e => rw [hdep] at hisok; simp [Except.isOk, Except.toBool] at hisok
        | ok rec =>
          obtain ⟨ha, hamt, hnote, hlt, hnotes, hnulls, htree, hname⟩ := deposit_ok_cases hdep
          have hfind : notesFind st.notes (ConfidentialNote.create a s sl ns).commitment
              = none := by
            rw [Option.isNone_iff_eq_none] at hfresh
            exact hfresh
          have hnd1 : (st1.notes.map Prod.fst).Nodup := by
            rw [hnotes]
            exact notesSet_keys_nodup_absent _ hfind hnd
          have htot1 : totalValue st1 = totalValue st + a := by
            rw [totalValue, hnotes, notesSet_value_sum_absent _ hfind]
            rfl
          have happly : applyOp st (.dep a s sl ns) = st1 := by
            simp [applyOp, hdep]
          rw [happly] at hrest
          have hmain := ih st1 hnd1 hrest
          simp only [runAcc, happly, hdep]
          refine ⟨hmain.1, ?_⟩
          have := hmain.2
          rw [htot1] at this
          rw [hamt] at *
          omega
    | wd c s addr =>
      simp only [okOp] at hop
      cases hwd : ShieldedPool.withdraw st c s addr with
      | mk st1 r =>
        cases r with
        | error e => rw [hwd] at hop; simp [Except.isOk, Except.toBool] at hop
        | ok rec =>
          obtain ⟨note, hfind, hnul, hsec, hamt, hnp, hnotes, hnulls, htree, hname⟩ :=
            withdraw_ok_cases hwd
          have hnd1 : (st1.notes.map Prod.fst).Nodup := by
            rw [hnotes]
            exact hnd.sublist ((notesErase_sublist st.notes c).map Prod.fst)
          have htot1 : totalValue st1 + note.value = totalValue st := by
            rw [totalValue, hnotes, totalValue]
            exact sum_notesErase hnd hfind
          have happly : applyOp st (.wd c s addr) = st1 := by
            simp [applyOp, hwd]
          rw [happly] at hrest
          have hmain := ih st1 hnd1 hrest
          simp only [runAcc, happly, hwd]
          refine ⟨hmain.1, ?_⟩
          have := hmain.2
          rw [hamt] at *
          omega
    | tr c addr a s c1 c2 r1 r2 =>
      simp only [okOp, Bool.and_eq_true] at hop
      obtain ⟨hisok, hfreshm⟩ := hop
      cases htr : ShieldedPool.createTransfer st c addr a s c1 c2 r1 r2 with
      | mk st1 r =>
        cases r with
        | error e => rw [htr] at hisok; simp [Except.isOk, Except.toBool] at hisok
        | ok rec =>
          obtain ⟨note, index, proof, hfind, hval, hnul, hidx, hproof, hfrom, hamt,
            hnp, hto, hname, hnulls, hbranch⟩ := createTransfer_ok_cases htr
          simp only [hfind] at hfreshm
          have happly : applyOp st (.tr c addr a s c1 c2 r1 r2) = st1 := by
            simp [applyOp, htr]
          rw [happly] at hrest
          rcases hbranch with ⟨hch, hchn, hins1, htree, hins2, hnotes⟩ |
            ⟨hch, hchn, hins1, htree, hnotes⟩
          · -- change-note branch
            rw [if_pos hch] at hfreshm
            simp only [Bool.and_eq_true] at hfreshm
            obtain ⟨hfreshTo, hfreshCh, hne⟩ := hfreshm
            have hfindTo : notesFind st.notes
                (ConfidentialNote.create a (recipientSecretOf addr) r1 r2).commitment
                = none := Option.isNone_iff_eq_none.mp hfreshTo
            have hfindCh : notesFind st.notes
                (ConfidentialNote.create (note.value - a) s c1 c2).commitment
                = none := Option.isNone_iff_eq_none.mp hfreshCh
            have hneC : (ConfidentialNote.create (note.value - a) s c1 c2).commitment
                ≠ (ConfidentialNote.create a (recipientSecretOf addr) r1 r2).commitment := by
              intro hc
              rw [bne_iff_ne] at hne
              exact hne hc
            have hfindTo2 : notesFind
                (notesSet st.notes (ConfidentialNote.create (note.value - a) s c1 c2).commitment
                  (ConfidentialNote.create (note.value - a) s c1 c2))
                (ConfidentialNote.create a (recipientSecretOf addr) r1 r2).commitment
                = none := by
              rw [notesFind_notesSet, if_neg (fun hc => hneC hc.symm), hfindTo]
            have hnd1 : (st1.notes.map Prod.fst).Nodup := by
              rw [hnotes]
              exact notesSet_keys_nodup_absent _ hfindTo2
                (notesSet_keys_nodup_absent _ hfindCh hnd)
            have htot1 : totalValue st1 = totalValue st + note.value := by
              rw [totalValue, hnotes, notesSet_value_sum_absent _ hfindTo2]
              rw [notesSet_value_sum_absent _ hfindCh]
              have hv1 : (ConfidentialNote.create (note.value - a) s c1 c2).value
                  = note.value - a := rfl
              have hv2 : (ConfidentialNote.create a (recipientSecretOf addr) r1 r2).value
                  = a := rfl
              rw [hv1, hv2, totalValue]
              have hle : a ≤ note.value := Nat.not_lt.mp hval
              omega
            have hmain := ih st1 hnd1 hrest
            simp only [runAcc, happly, htr]
            refine ⟨hmain.1, ?_⟩
            have := hmain.2
            rw [htot1] at this
            rw [hfrom] at *
            omega
          · -- no-change branch
            rw [if_neg (by omega : ¬ 0 < note.value - a)] at hfreshm
            simp only [Bool.and_true] at hfreshm
            have hfindTo : notesFind st.notes
                (ConfidentialNote.create a (recipientSecretOf addr) r1 r2).commitment
                = none := Option.isNone_iff_eq_none.mp hfreshm
            have hnd1 : (st1.notes.map Prod.fst).Nodup := by
              rw [hnotes]
              exact notesSet_keys_nodup_absent _ hfindTo hnd
            have htot1 : totalValue st1 = totalValue st + note.value := by
              rw [totalValue, hnotes, notesSet_value_sum_absent _ hfindTo]
              have hv2 : (ConfidentialNote.create a (recipientSecretOf addr) r1 r2).value
                  = a := rfl
              rw [hv2, totalValue]
              have hle : a ≤ note.value := Nat.not_lt.mp hval
              omega
            have hmain := ih st1 hnd1 hrest
            simp only [runAcc, happly, htr]
            refine ⟨hmain.1, ?_⟩
            have := hmain.2
            rw [htot1] at this
            rw [hfrom] at *
            omega

/-- C1 (amended): the spent input of a transfer stays in the note map and
keeps contributing to balances, so for every sequence of successful
deposit/transfer/withdraw calls (with distinct freshly generated
commitments) on a pool constructed empty, the sum of get_balance(s) over a
duplicate-free set of secrets covering all stored notes, plus the amounts
returned by successful withdrawals, equals the amounts accepted by successful
deposits PLUS the values of the notes consumed by successful transfers (the
claimed equality without that extra term fails — see the counterexample).
Within one transfer the newly created notes do sum exactly to the consumed
note's value. -/
theorem balance_conservation_amended :
    (∀ (ops : List PoolOp) (S : List Nat),
      okRun emptyPool ops = true → S.Nodup →
      (∀ p ∈ (runOps emptyPool ops).notes, p.2.secret ∈ S) →
      (S.map (fun s => (ShieldedPool.getBalance (runOps emptyPool ops) s).totalBalance)).sum
          + (runAcc emptyPool ops).2.2.1
        = (runAcc emptyPool ops).2.1 + (runAcc emptyPool ops).2.2.2) ∧
    (∀ (st : PoolState) (c : Nat) (addr : String) (a s c1 c2 r1 r2 : Nat)
      (st' : PoolState) (rec : TransferReceipt),
      ShieldedPool.createTransfer st c addr a s c1 c2 r1 r2 = (st', .ok rec) →
      rec.toNote.value + (rec.changeNote.map (fun ch => ch.value)).getD 0
        = rec.fromNote.value) := by
  constructor
  · intro ops S hok hS hcov
    have hnd0 : ((emptyPool.notes).map Prod.fst).Nodup := by
      simp [emptyPool, PoolState.new]
    have hmain := runAcc_conservation ops emptyPool hnd0 hok
    have hfst := runAcc_fst ops emptyPool
    have hcover := covering_balance_sum (runOps emptyPool ops) S hS hcov
    rw [hcover, ← hfst]
    have htot0 : totalValue emptyPool = 0 := by simp [totalValue, emptyPool, PoolState.new]
    have := hmain.2
    rw [htot0] at this
    omega
  · intro st c addr a s c1 c2 r1 r2 st' rec htr
    obtain ⟨note, index, proof, hfind, hval, hnul, hidx, hproof, hfrom, hamt,
      hnp, hto, hname, hnulls, hbranch⟩ := createTransfer_ok_cases htr
    have hle : a ≤ note.value := Nat.not_lt.mp hval
    rcases hbranch with ⟨hch, hchn, _⟩ | ⟨hch, hchn, _⟩
    · rw [hfrom, hto, hchn]
      have hv1 : (ConfidentialNote.create a (recipientSecretOf addr) r1 r2).value = a := rfl
      have hv2 : (ConfidentialNote.create (note.value - a) s c1 c2).value
          = note.value - a := rfl
      simp [hv1, hv2]
      omega
    · rw [hfrom, hto, hchn]
      have hv1 : (ConfidentialNote.create a (recipientSecretOf addr) r1 r2).value = a := rfl
      simp [hv1]
      omega


/-! ## Forward equations for successful operations (used to drive the
concrete scenarios without evaluating the 2^16-element leaves list) -/

theorem deposit_eq {st : PoolState} (a s sl ns : Nat) (ha : a ≠ 0)
    (hlt : st.tree.nextIndex < st.tree.leaves.length) :
    ShieldedPool.deposit st a s sl ns
      = ({ st with
            tree := (st.tree.insert (ConfidentialNote.create a s sl ns).commitment).1,
            notes := notesSet st.notes (ConfidentialNote.create a s sl ns).commitment
              (ConfidentialNote.create a s sl ns) },
         .ok { amount := a, note := ConfidentialNote.create a s sl ns,
               commitment := (ConfidentialNote.create a s sl ns).commitment,
               nullifier := (ConfidentialNote.create a s sl ns).nullifier,
               merkleIndex := st.tree.nextIndex,
               merkleRoot := (st.tree.insert
                 (ConfidentialNote.create a s sl ns).commitment).1.getRoot }) := by
  simp only [ShieldedPool.deposit, ha, if_false]
  cases hins : st.tree.insert (ConfidentialNote.create a s sl ns).commitment with
  | mk t' r =>
    have h2 := (NoteMerkleTree.insert_lt (ConfidentialNote.create a s sl ns).commitment hlt).1
    rw [hins] at h2
    simp only [] at h2
    subst h2
    rfl

theorem withdraw_eq {st : PoolState} {c : Nat} {note : ConfidentialNote} {index : Nat}
    (s : Nat) (addr : String)
    (hfind : notesFind st.notes c = some note)
    (hnul : note.nullifier ∉ st.nullifiers)
    (hsec : note.secret = s)
    (hidx : pyListIndex st.tree.leaves note.commitment = some index)
    (hplt : index < st.tree.nextIndex) :
    ShieldedPool.withdraw st c s addr
      = ({ st with
            nullifiers := nullAdd st.nullifiers note.nullifier,
            notes := notesErase st.notes c },
         .ok { amount := note.value, recipient := addr,
               nullifierPublished := note.nullifier,
               proof := { leafIndex := index, root := st.tree.getRoot,
                          path := proofPathAux st.tree.nodes
                            (index + 2 ^ st.tree.depth - 1) st.tree.depth,
                          leaves := (st.tree.leaves.take
                            st.tree.nextIndex).filterMap id } }) := by
  simp only [ShieldedPool.withdraw, hfind, hidx]
  rw [if_neg hnul, if_neg (by simp [hsec])]
  simp only [hidx, NoteMerkleTree.getProof, if_neg (Nat.not_le.mpr hplt)]

theorem createTransfer_eq_nochange {st : PoolState} {c : Nat} {note : ConfidentialNote}
    {index : Nat} (addr : String) (a s c1 c2 r1 r2 : Nat)
    (hfind : notesFind st.notes c = some note)
    (hval : ¬ note.value < a)
    (hch : note.value - a = 0)
    (hnul : note.nullifier ∉ st.nullifiers)
    (hidx : pyListIndex st.tree.leaves note.commitment = some index)
    (hplt : index < st.tree.nextIndex)
    (hcap : st.tree.nextIndex < st.tree.leaves.length) :
    ShieldedPool.createTransfer st c addr a s c1 c2 r1 r2
      = ({ st with
            nullifiers := nullAdd st.nullifiers note.nullifier,
            tree := (st.tree.insert
              (ConfidentialNote.create a (recipientSecretOf addr) r1 r2).commitment).1,
            notes := notesSet st.notes
              (ConfidentialNote.create a (recipientSecretOf addr) r1 r2).commitment
              (ConfidentialNote.create a (recipientSecretOf addr) r1 r2) },
         .ok { fromNote := note,
               toNote := ConfidentialNote.create a (recipientSecretOf addr) r1 r2,
               changeNote := none, amountTransferred := a, changeAmount := 0,
               nullifierPublished := note.nullifier,
               proof := { leafIndex := index, root := st.tree.getRoot,
                          path := proofPathAux st.tree.nodes
                            (index + 2 ^ st.tree.depth - 1) st.tree.depth,
                          leaves := (st.tree.leaves.take
                            st.tree.nextIndex).filterMap id },
               newRoot := (st.tree.insert
                 (ConfidentialNote.create a
                   (recipientSecretOf addr) r1 r2).commitment).1.getRoot }) := by
  simp only [ShieldedPool.createTransfer, hfind, hidx]
  rw [if_neg hval, if_neg hnul]
  simp only [hidx, NoteMerkleTree.getProof, if_neg (Nat.not_le.mpr hplt)]
  rw [if_neg (by omega : ¬ 0 < note.value - a)]
  cases hins : st.tree.insert
      (ConfidentialNote.create a (recipientSecretOf addr) r1 r2).commitment with
  | mk t1 q1 =>
    have h2 := (NoteMerkleTree.insert_lt
      (ConfidentialNote.create a (recipientSecretOf addr) r1 r2).commitment hcap).1
    rw [hins] at h2
    simp only [] at h2
    subst h2
    rfl

theorem createTransfer_eq_change {st : PoolState} {c : Nat} {note : ConfidentialNote}
    {index : Nat} (addr : String) (a s c1 c2 r1 r2 : Nat)
    (hfind : notesFind st.notes c = some note)
    (hval : ¬ note.value < a)
    (hch : 0 < note.value - a)
    (hnul : note.nullifier ∉ st.nullifiers)
    (hidx : pyListIndex st.tree.leaves note.commitment = some index)
    (hplt : index < st.tree.nextIndex)
    (hcap1 : st.tree.nextIndex < st.tree.leaves.length)
    (hcap2 : (st.tree.insert
        (ConfidentialNote.create (note.value - a) s c1 c2).commitment).1.nextIndex
      < (st.tree.insert
        (ConfidentialNote.create (note.value - a) s c1 c2).commitment).1.leaves.length) :
    ShieldedPool.createTransfer st c addr a s c1 c2 r1 r2
      = ({ st with
            nullifiers := nullAdd st.nullifiers note.nullifier,
            tree := ((st.tree.insert
              (ConfidentialNote.create (note.value - a) s c1 c2).commitment).1.insert
              (ConfidentialNote.create a (recipientSecretOf addr) r1 r2).commitment).1,
            notes := notesSet
              (notesSet st.notes
                (ConfidentialNote.create (note.value - a) s c1 c2).commitment
                (ConfidentialNote.create (note.value - a) s c1 c2))
              (ConfidentialNote.create a (recipientSecretOf addr) r1 r2).commitment
              (ConfidentialNote.create a (recipientSecretOf addr) r1 r2) },
         .ok { fromNote := note,
               toNote := ConfidentialNote.create a (recipientSecretOf addr) r1 r2,
               changeNote := some (ConfidentialNote.create (note.value - a) s c1 c2),
               amountTransferred := a, changeAmount := note.value - a,
               nullifierPublished := note.nullifier,
               proof := { leafIndex := index, root := st.tree.getRoot,
                          path := proofPathAux st.tree.nodes
                            (index + 2 ^ st.tree.depth - 1) st.tree.depth,
                          leaves := (st.tree.leaves.take
                            st.tree.nextIndex).filterMap id },
               newRoot := ((st.tree.insert
                 (ConfidentialNote.create (note.value - a) s c1 c2).commitment).1.insert
                 (ConfidentialNote.create a
                   (recipientSecretOf addr) r1 r2).commitment).1.getRoot }) := by
  simp only [ShieldedPool.createTransfer, hfind, hidx]
  rw [if_neg hval, if_neg hnul]
  simp only [hidx, NoteMerkleTree.getProof, if_neg (Nat.not_le.mpr hplt)]
  rw [if_pos hch]
  cases hins1 : st.tree.insert
      (ConfidentialNote.create (note.value - a) s c1 c2).commitment with
  | mk t1 q1 =>
    have h1 := (NoteMerkleTree.insert_lt
      (ConfidentialNote.create (note.value - a) s c1 c2).commitment hcap1).1
    rw [hins1] at h1
    simp only [] at h1
    subst h1
    rw [hins1] at hcap2
    dsimp only []
    cases hins2 : t1.insert
        (ConfidentialNote.create a (recipientSecretOf addr) r1 r2).commitment with
    | mk t2 q2 =>
      have h2 := (NoteMerkleTree.insert_lt
        (ConfidentialNote.create a (recipientSecretOf addr) r1 r2).commitment hcap2).1
      rw [hins2] at h2
      simp only [] at h2
      subst h2
      rfl

/-! ## Concrete scenario toolkit -/

theorem new16_cap : (NoteMerkleTree.new 16).nextIndex < (NoteMerkleTree.new 16).leaves.length := by
  show (0 : Nat) < (List.replicate (2 ^ 16) (none : Option Nat)).length
  rw [List.length_replicate]
  norm_num

theorem replicate_pow16 :
    List.replicate (2 ^ 16) (none : Option Nat) = none :: List.replicate 65535 none := by
  rw [show (2 : Nat) ^ 16 = 65536 by norm_num]
  rfl

theorem emptyPool_tree : emptyPool.tree = NoteMerkleTree.new 16 := rfl

theorem depositChange_step :
    ShieldedPool.deposit emptyPool 100 1 2 3
      = ({ name := "starknet-shielded-pool",
           notes := [(noteD1.commitment, noteD1)],
           nullifiers := [],
           tree := ((NoteMerkleTree.new 16).insert noteD1.commitment).1 },
         .ok { amount := 100, note := noteD1, commitment := noteD1.commitment,
               nullifier := noteD1.nullifier, merkleIndex := 0,
               merkleRoot := ((NoteMerkleTree.new 16).insert noteD1.commitment).1.getRoot }) := by
  rw [deposit_eq 100 1 2 3 (by decide) new16_cap]
  rfl

theorem treeA_leaves :
    ((NoteMerkleTree.new 16).insert noteD1.commitment).1.leaves
      = some noteD1.commitment :: List.replicate 65535 none := by
  rw [(NoteMerkleTree.insert_lt noteD1.commitment new16_cap).2.2.1]
  show (List.replicate (2 ^ 16) (none : Option Nat)).set 0 (some noteD1.commitment)
      = some noteD1.commitment :: List.replicate 65535 none
  rw [replicate_pow16]
  rfl

theorem treeA_nextIndex :
    ((NoteMerkleTree.new 16).insert noteD1.commitment).1.nextIndex = 1 :=
  (NoteMerkleTree.insert_lt noteD1.commitment new16_cap).2.1

theorem treeA_cap :
    ((NoteMerkleTree.new 16).insert noteD1.commitment).1.nextIndex
      < ((NoteMerkleTree.new 16).insert noteD1.commitment).1.leaves.length := by
  rw [treeA_nextIndex, treeA_leaves]
  rw [List.length_cons, List.length_replicate]
  norm_num

theorem pyListIndexAux_cons_pos {x : Option Nat} {xs : List (Option Nat)} {c i : Nat}
    (h : x = some c) : pyListIndexAux (x :: xs) c i = some i := by
  simp [pyListIndexAux, h]

theorem treeA_index :
    pyListIndex ((NoteMerkleTree.new 16).insert noteD1.commitment).1.leaves noteD1.commitment
      = some 0 := by
  rw [treeA_leaves]
  exact pyListIndexAux_cons_pos rfl

theorem applyOp_dep (st : PoolState) (a s sl ns : Nat) :
    applyOp st (PoolOp.dep a s sl ns) = (ShieldedPool.deposit st a s sl ns).1 := rfl

theorem applyOp_tr (st : PoolState) (c : Nat) (addr : String) (a s c1 c2 r1 r2 : Nat) :
    applyOp st (PoolOp.tr c addr a s c1 c2 r1 r2)
      = (ShieldedPool.createTransfer st c addr a s c1 c2 r1 r2).1 := rfl

theorem applyOp_wd (st : PoolState) (c s : Nat) (addr : String) :
    applyOp st (PoolOp.wd c s addr) = (ShieldedPool.withdraw st c s addr).1 := rfl

theorem runOps_cons (st : PoolState) (op : PoolOp) (ops : List PoolOp) :
    runOps st (op :: ops) = runOps (applyOp st op) ops := rfl

theorem runOps_nil (st : PoolState) : runOps st [] = st := rfl

theorem poolA_find : notesFind poolA.notes (confCommitment 100 1 2) = some noteD1 := by
  show notesFind [(noteD1.commitment, noteD1)] (confCommitment 100 1 2) = some noteD1
  have hkey : noteD1.commitment = confCommitment 100 1 2 := rfl
  simp only [notesFind]
  rw [if_pos hkey]

theorem treeB_nextIndex (c : Nat) :
    (((NoteMerkleTree.new 16).insert noteD1.commitment).1.insert c).1.nextIndex = 2 := by
  rw [(NoteMerkleTree.insert_lt c treeA_cap).2.1, treeA_nextIndex]

theorem treeB_leaves_len (c : Nat) :
    (((NoteMerkleTree.new 16).insert noteD1.commitment).1.insert c).1.leaves.length
      = 65536 := by
  rw [NoteMerkleTree.insert_leaves_length, treeA_leaves, List.length_cons,
    List.length_replicate]

theorem treeB_cap (c : Nat) :
    (((NoteMerkleTree.new 16).insert noteD1.commitment).1.insert c).1.nextIndex
      < (((NoteMerkleTree.new 16).insert noteD1.commitment).1.insert c).1.leaves.length := by
  rw [treeB_nextIndex, treeB_leaves_len]
  norm_num


/-! ## Constructor-projection helpers (syntactic rewriting toolkit) -/

theorem tree_mk (n : String) (no : List (Nat × ConfidentialNote)) (nu : List Nat)
    (t : NoteMerkleTree) : PoolState.tree ⟨n, no, nu, t⟩ = t := rfl

theorem notes_mk (n : String) (no : List (Nat × ConfidentialNote)) (nu : List Nat)
    (t : NoteMerkleTree) : PoolState.notes ⟨n, no, nu, t⟩ = no := rfl

theorem nulls_mk (n : String) (no : List (Nat × ConfidentialNote)) (nu : List Nat)
    (t : NoteMerkleTree) : PoolState.nullifiers ⟨n, no, nu, t⟩ = nu := rfl

theorem name_mk (n : String) (no : List (Nat × ConfidentialNote)) (nu : List Nat)
    (t : NoteMerkleTree) : PoolState.name ⟨n, no, nu, t⟩ = n := rfl

theorem fst_pair {A : Type _} {B : Type _} (a : A) (b : B) : (a, b).1 = a := rfl

theorem snd_pair {A : Type _} {B : Type _} (a : A) (b : B) : (a, b).2 = b := rfl

/-- poolA written out as a record literal (definitional unfolding). -/
theorem poolA_lit : poolA =
    { name := "starknet-shielded-pool"
      notes := [(noteD1.commitment, noteD1)]
      nullifiers := []
      tree := ((NoteMerkleTree.new 16).insert noteD1.commitment).1 } := rfl

theorem poolChangeX_lit : poolChangeX =
    { name := "starknet-shielded-pool"
      notes := [(noteD1.commitment, noteD1), (noteCh.commitment, noteCh),
                (noteRe40.commitment, noteRe40)]
      nullifiers := [noteD1.nullifier]
      tree := ((((NoteMerkleTree.new 16).insert noteD1.commitment).1.insert
        noteCh.commitment).1.insert noteRe40.commitment).1 } := rfl

theorem poolSpendX_lit : poolSpendX =
    { name := "starknet-shielded-pool"
      notes := [(noteD1.commitment, noteD1), (noteRe100.commitment, noteRe100)]
      nullifiers := [noteD1.nullifier]
      tree := (((NoteMerkleTree.new 16).insert noteD1.commitment).1.insert
        noteRe100.commitment).1 } := rfl

theorem poolWithdrawX_lit : poolWithdrawX =
    { name := "starknet-shielded-pool"
      notes := []
      nullifiers := [noteD1.nullifier]
      tree := ((NoteMerkleTree.new 16).insert noteD1.commitment).1 } := rfl

/-- The change note of the scenChange transfer, as create_transfer spells it. -/
theorem noteCh_eq : ConfidentialNote.create (noteD1.value - 40) 1 4 5 = noteCh := rfl

theorem noteRe40_eq :
    ConfidentialNote.create 40 (recipientSecretOf "0xbob") 6 7 = noteRe40 := rfl

theorem noteRe100_eq :
    ConfidentialNote.create 100 (recipientSecretOf "0xbob") 6 7 = noteRe100 := rfl

theorem noteD1_key : noteD1.commitment = confCommitment 100 1 2 := rfl

/-- The concrete commitments of the scenario notes are pairwise distinct
(sha256 evaluation). -/
theorem hne_d_ch : noteD1.commitment ≠ noteCh.commitment := by decide

theorem hne_d_re40 : noteD1.commitment ≠ noteRe40.commitment := by decide

theorem hne_ch_re40 : noteCh.commitment ≠ noteRe40.commitment := by decide

theorem hne_d_re100 : noteD1.commitment ≠ noteRe100.commitment := by decide

theorem nullAdd_nil (x : Nat) : nullAdd [] x = [x] := by simp [nullAdd]

theorem notesChange_reduce :
    notesSet (notesSet [(noteD1.commitment, noteD1)] noteCh.commitment noteCh)
      noteRe40.commitment noteRe40
    = [(noteD1.commitment, noteD1), (noteCh.commitment, noteCh),
       (noteRe40.commitment, noteRe40)] := by
  have h1 : notesFind [(noteD1.commitment, noteD1)] noteCh.commitment = none := by
    simp [notesFind, hne_d_ch]
  rw [notesSet_absent noteCh h1]
  have h2 : notesFind ([(noteD1.commitment, noteD1)] ++ [(noteCh.commitment, noteCh)])
      noteRe40.commitment = none := by
    simp [notesFind, hne_d_re40, hne_ch_re40]
  rw [notesSet_absent noteRe40 h2]
  simp

theorem notesSpend_reduce :
    notesSet [(noteD1.commitment, noteD1)] noteRe100.commitment noteRe100
    = [(noteD1.commitment, noteD1), (noteRe100.commitment, noteRe100)] := by
  have h1 : notesFind [(noteD1.commitment, noteD1)] noteRe100.commitment = none := by
    simp [notesFind, hne_d_re100]
  rw [notesSet_absent noteRe100 h1]
  simp

theorem notesWd_reduce :
    notesErase [(noteD1.commitment, noteD1)] (confCommitment 100 1 2) = [] := by
  simp [notesErase, noteD1_key]

/-- Scenario hypothesis pack: the post-deposit pool accepts the scenario
transfer: its note is found, fresh, indexed at leaf 0, and the tree has room. -/
theorem poolA_nul_fresh : noteD1.nullifier ∉ poolA.nullifiers := by
  rw [poolA_lit, nulls_mk]
  exact List.not_mem_nil _

theorem poolA_idx : pyListIndex poolA.tree.leaves noteD1.commitment = some 0 := by
  rw [poolA_lit, tree_mk]
  exact treeA_index

theorem poolA_plt : (0 : Nat) < poolA.tree.nextIndex := by
  rw [poolA_lit, tree_mk, treeA_nextIndex]
  norm_num

theorem poolA_cap : poolA.tree.nextIndex < poolA.tree.leaves.length := by
  rw [poolA_lit, tree_mk]
  exact treeA_cap

theorem poolA_cap2 : (poolA.tree.insert
      (ConfidentialNote.create (noteD1.value - 40) 1 4 5).commitment).1.nextIndex
    < (poolA.tree.insert
      (ConfidentialNote.create (noteD1.value - 40) 1 4 5).commitment).1.leaves.length := by
  rw [poolA_lit, tree_mk]
  exact treeB_cap _

/-- The scenChange transfer, evaluated: spends noteD1, creates the change note
and the recipient note, publishes noteD1's nullifier. -/
theorem transferChange_step :
    ShieldedPool.createTransfer poolA (confCommitment 100 1 2) "0xbob" 40 1 4 5 6 7
      = (poolChangeX,
         .ok { fromNote := noteD1, toNote := noteRe40, changeNote := some noteCh,
               amountTransferred := 40, changeAmount := noteD1.value - 40,
               nullifierPublished := noteD1.nullifier,
               proof := { leafIndex := 0,
                          root := ((NoteMerkleTree.new 16).insert
                            noteD1.commitment).1.getRoot,
                          path := proofPathAux
                            ((NoteMerkleTree.new 16).insert noteD1.commitment).1.nodes
                            (0 + 2 ^ ((NoteMerkleTree.new 16).insert
                              noteD1.commitment).1.depth - 1)
                            ((NoteMerkleTree.new 16).insert noteD1.commitment).1.depth,
                          leaves := ((((NoteMerkleTree.new 16).insert
                            noteD1.commitment).1.leaves).take
                            ((NoteMerkleTree.new 16).insert
                              noteD1.commitment).1.nextIndex).filterMap id },
               newRoot := ((((NoteMerkleTree.new 16).insert noteD1.commitment).1.insert
                 noteCh.commitment).1.insert noteRe40.commitment).1.getRoot }) := by
  have hval : ¬ noteD1.value < 40 := by decide
  have hch : 0 < noteD1.value - 40 := by decide
  have htr := createTransfer_eq_change "0xbob" 40 1 4 5 6 7 poolA_find hval hch
    poolA_nul_fresh poolA_idx poolA_plt poolA_cap poolA_cap2
  refine htr.trans ?_
  rw [poolA_lit, name_mk, tree_mk, notes_mk, nulls_mk, noteCh_eq, noteRe40_eq,
    notesChange_reduce, nullAdd_nil, poolChangeX_lit]

/-- The scenSpend transfer, evaluated: the full value moves to the recipient
note, no change note; the spent noteD1 stays in the dict. -/
theorem transferSpend_step :
    ShieldedPool.createTransfer poolA (confCommitment 100 1 2) "0xbob" 100 1 4 5 6 7
      = (poolSpendX,
         .ok { fromNote := noteD1, toNote := noteRe100, changeNote := none,
               amountTransferred := 100, changeAmount := 0,
               nullifierPublished := noteD1.nullifier,
               proof := { leafIndex := 0,
                          root := ((NoteMerkleTree.new 16).insert
                            noteD1.commitment).1.getRoot,
                          path := proofPathAux
                            ((NoteMerkleTree.new 16).insert noteD1.commitment).1.nodes
                            (0 + 2 ^ ((NoteMerkleTree.new 16).insert
                              noteD1.commitment).1.depth - 1)
                            ((NoteMerkleTree.new 16).insert noteD1.commitment).1.depth,
                          leaves := ((((NoteMerkleTree.new 16).insert
                            noteD1.commitment).1.leaves).take
                            ((NoteMerkleTree.new 16).insert
                              noteD1.commitment).1.nextIndex).filterMap id },
               newRoot := (((NoteMerkleTree.new 16).insert noteD1.commitment).1.insert
                 noteRe100.commitment).1.getRoot }) := by
  have hval : ¬ noteD1.value < 100 := by decide
  have hch : noteD1.value - 100 = 0 := by decide
  have htr := createTransfer_eq_nochange "0xbob" 100 1 4 5 6 7 poolA_find hval hch
    poolA_nul_fresh poolA_idx poolA_plt poolA_cap
  refine htr.trans ?_
  rw [poolA_lit, name_mk, tree_mk, notes_mk, nulls_mk, noteRe100_eq,
    notesSpend_reduce, nullAdd_nil, poolSpendX_lit]

/-- The scenWithdraw withdrawal, evaluated: deletes noteD1 from the dict and
publishes its nullifier; the tree keeps its leaf. -/
theorem withdraw_step :
    ShieldedPool.withdraw poolA (confCommitment 100 1 2) 1 "0xdd"
      = (poolWithdrawX,
         .ok { amount := noteD1.value, recipient := "0xdd",
               nullifierPublished := noteD1.nullifier,
               proof := { leafIndex := 0,
                          root := ((NoteMerkleTree.new 16).insert
                            noteD1.commitment).1.getRoot,
                          path := proofPathAux
                            ((NoteMerkleTree.new 16).insert noteD1.commitment).1.nodes
                            (0 + 2 ^ ((NoteMerkleTree.new 16).insert
                              noteD1.commitment).1.depth - 1)
                            ((NoteMerkleTree.new 16).insert noteD1.commitment).1.depth,
                          leaves := ((((NoteMerkleTree.new 16).insert
                            noteD1.commitment).1.leaves).take
                            ((NoteMerkleTree.new 16).insert
                              noteD1.commitment).1.nextIndex).filterMap id } }) := by
  have hsec : noteD1.secret = 1 := rfl
  have hw := withdraw_eq 1 "0xdd" poolA_find poolA_nul_fresh hsec poolA_idx poolA_plt
  refine hw.trans ?_
  rw [poolA_lit, name_mk, tree_mk, notes_mk, nulls_mk, notesWd_reduce, nullAdd_nil,
    poolWithdrawX_lit]

theorem scenChange_ops : scenChange
    = [PoolOp.dep 100 1 2 3,
       PoolOp.tr (confCommitment 100 1 2) "0xbob" 40 1 4 5 6 7] := rfl

theorem scenSpend_ops : scenSpend
    = [PoolOp.dep 100 1 2 3,
       PoolOp.tr (confCommitment 100 1 2) "0xbob" 100 1 4 5 6 7] := rfl

theorem scenWithdraw_ops : scenWithdraw
    = [PoolOp.dep 100 1 2 3, PoolOp.wd (confCommitment 100 1 2) 1 "0xdd"] := rfl

/-- The first scenario step: depositing 100 under secret 1 into the empty pool
produces poolA. -/
theorem depA_step : applyOp emptyPool (PoolOp.dep 100 1 2 3) = poolA := by
  rw [applyOp_dep, depositChange_step, fst_pair, ← poolA_lit]

theorem stChange_eq : stChange = poolChangeX := by
  show runOps emptyPool scenChange = poolChangeX
  rw [scenChange_ops, runOps_cons, depA_step, runOps_cons, applyOp_tr,
    transferChange_step, fst_pair, runOps_nil]

theorem stSpend_eq : stSpend = poolSpendX := by
  show runOps emptyPool scenSpend = poolSpendX
  rw [scenSpend_ops, runOps_cons, depA_step, runOps_cons, applyOp_tr,
    transferSpend_step, fst_pair, runOps_nil]

theorem stWithdraw_eq : stWithdraw = poolWithdrawX := by
  show runOps emptyPool scenWithdraw = poolWithdrawX
  rw [scenWithdraw_ops, runOps_cons, depA_step, runOps_cons, applyOp_wd,
    withdraw_step, fst_pair, runOps_nil]

/-- Both scenario operations satisfy the success-and-freshness side
condition. -/
theorem okOp_depA : okOp emptyPool (PoolOp.dep 100 1 2 3) = true := by
  simp only [okOp]
  rw [depositChange_step, snd_pair]
  rfl

theorem okOp_trA :
    okOp poolA (PoolOp.tr (confCommitment 100 1 2) "0xbob" 40 1 4 5 6 7) = true := by
  simp only [okOp]
  rw [transferChange_step, snd_pair, poolA_find]
  rfl

theorem okRun_scenChange : okRun emptyPool scenChange = true := by
  rw [scenChange_ops]
  simp only [okRun]
  rw [depA_step, okOp_depA, okOp_trA]
  rfl

/-- runAcc unfolding equations at abstract arguments (cheap for the kernel). -/
theorem runAcc_nil (st : PoolState) : runAcc st [] = (st, 0, 0, 0) := by
  simp only [runAcc]

theorem runAcc_cons_dep_ok (st : PoolState) (a s sl ns : Nat) (ops : List PoolOp)
    (st2 : PoolState) (rec : DepositReceipt)
    (h : ShieldedPool.deposit st a s sl ns = (st2, .ok rec)) :
    runAcc st (PoolOp.dep a s sl ns :: ops)
      = ((runAcc (applyOp st (PoolOp.dep a s sl ns)) ops).1,
         rec.amount + (runAcc (applyOp st (PoolOp.dep a s sl ns)) ops).2.1,
         (runAcc (applyOp st (PoolOp.dep a s sl ns)) ops).2.2.1,
         (runAcc (applyOp st (PoolOp.dep a s sl ns)) ops).2.2.2) := by
  simp only [runAcc]
  rw [h, snd_pair]

theorem runAcc_cons_tr_ok (st : PoolState) (c : Nat) (addr : String)
    (a s c1 c2 r1 r2 : Nat) (ops : List PoolOp)
    (st2 : PoolState) (rec : TransferReceipt)
    (h : ShieldedPool.createTransfer st c addr a s c1 c2 r1 r2 = (st2, .ok rec)) :
    runAcc st (PoolOp.tr c addr a s c1 c2 r1 r2 :: ops)
      = ((runAcc (applyOp st (PoolOp.tr c addr a s c1 c2 r1 r2)) ops).1,
         (runAcc (applyOp st (PoolOp.tr c addr a s c1 c2 r1 r2)) ops).2.1,
         (runAcc (applyOp st (PoolOp.tr c addr a s c1 c2 r1 r2)) ops).2.2.1,
         rec.fromNote.value
           + (runAcc (applyOp st (PoolOp.tr c addr a s c1 c2 r1 r2)) ops).2.2.2) := by
  simp only [runAcc]
  rw [h, snd_pair]

theorem runAcc_cons_wd_ok (st : PoolState) (c s : Nat) (addr : String)
    (ops : List PoolOp) (st2 : PoolState) (rec : WithdrawReceipt)
    (h : ShieldedPool.withdraw st c s addr = (st2, .ok rec)) :
    runAcc st (PoolOp.wd c s addr :: ops)
      = ((runAcc (applyOp st (PoolOp.wd c s addr)) ops).1,
         (runAcc (applyOp st (PoolOp.wd c s addr)) ops).2.1,
         rec.amount + (runAcc (applyOp st (PoolOp.wd c s addr)) ops).2.2.1,
         (runAcc (applyOp st (PoolOp.wd c s addr)) ops).2.2.2) := by
  simp only [runAcc]
  rw [h, snd_pair]

/-- The instrumented run of scenChange: 100 deposited, nothing withdrawn, the
100-value noteD1 consumed by the transfer. -/
theorem runAccChange : runAcc emptyPool scenChange = (poolChangeX, 100, 0, 100) := by
  rw [scenChange_ops,
    runAcc_cons_dep_ok emptyPool 100 1 2 3 _ _ _ depositChange_step,
    depA_step,
    runAcc_cons_tr_ok poolA (confCommitment 100 1 2) "0xbob" 40 1 4 5 6 7 _ _ _
      transferChange_step,
    applyOp_tr, transferChange_step, fst_pair, runAcc_nil]
  rfl

/-- Every note of the scenChange end state carries secret 1 or the derived
secret of 0xbob. -/
theorem scenChange_cover :
    ∀ p ∈ (runOps emptyPool scenChange).notes, p.2.secret ∈ ([1, bobSecret] : List Nat) := by
  show ∀ p ∈ stChange.notes, p.2.secret ∈ ([1, bobSecret] : List Nat)
  rw [stChange_eq, poolChangeX_lit, notes_mk]
  decide

/-- C1 (witness): the amended conservation law evaluated on scenChange — the
covering secrets are 1 and the derived secret of 0xbob — and the per-transfer
value split of its transfer receipt. -/
theorem balance_conservation_amended_witness :
    (([1, bobSecret].map
        (fun s => (ShieldedPool.getBalance (runOps emptyPool scenChange) s).totalBalance)).sum
        + (runAcc emptyPool scenChange).2.2.1
      = (runAcc emptyPool scenChange).2.1 + (runAcc emptyPool scenChange).2.2.2) ∧
    noteRe40.value + ((some noteCh).map (fun ch => ch.value)).getD 0 = noteD1.value :=
  ⟨balance_conservation_amended.1 scenChange [1, bobSecret] okRun_scenChange
      (by decide) scenChange_cover,
   balance_conservation_amended.2 _ _ _ _ _ _ _ _ _ _ _ transferChange_step⟩

/-- Coverage restated over the stChange abbreviation. -/
theorem stChange_cover :
    ∀ p ∈ stChange.notes, p.2.secret ∈ ([1, bobSecret] : List Nat) := by
  rw [stChange_eq, poolChangeX_lit, notes_mk]
  decide

/-- C1 (counterexample): on scenChange the spec's conservation law without the
consumed-notes term fails — the balances after the run sum to 200 (the spent
100-value note still counts, together with the change note 60 and the
recipient note 40), nothing was withdrawn, yet only 100 was deposited. -/
theorem balance_conservation_cex :
    okRun emptyPool scenChange = true ∧
    (∀ p ∈ stChange.notes, p.2.secret ∈ ([1, bobSecret] : List Nat)) ∧
    ([1, bobSecret] : List Nat).Nodup ∧
    ([1, bobSecret].map
        (fun s => (ShieldedPool.getBalance stChange s).totalBalance)).sum
        + (runAcc emptyPool scenChange).2.2.1 = 200 ∧
    (runAcc emptyPool scenChange).2.1 = 100 := by
  refine ⟨okRun_scenChange, stChange_cover, by decide, ?_, ?_⟩
  · rw [stChange_eq, runAccChange]
    decide
  · rw [runAccChange]

/-- C3 (counterexample): after scenChange, get_balance(1) returns 160 — it
still counts the 100-value note spent by the transfer — while the sum over
unspent matching notes is only the 60 change note. -/
theorem getBalance_unspent_cex :
    (ShieldedPool.getBalance stChange 1).totalBalance = 160 ∧
    specBalanceUnspent stChange 1 = 60 ∧
    (ShieldedPool.getBalance stChange 1).totalBalance ≠ specBalanceUnspent stChange 1 := by
  refine ⟨?_, ?_, ?_⟩ <;> rw [stChange_eq] <;> decide

theorem poolSpendX_find :
    notesFind poolSpendX.notes (confCommitment 100 1 2) = some noteD1 := by
  rw [poolSpendX_lit, notes_mk]
  simp [notesFind, noteD1_key]

theorem noteD1_value : noteD1.value = 100 := rfl

/-- C2 (counterexample): after scenSpend the spent note keeps sitting in the
note map with its nullifier published; a second transfer naming it with an
excessive amount fails with InsufficientBalanceError — not AlreadySpentError
as the claim requires for every operation that would re-insert the
nullifier. -/
theorem no_double_spend_cex :
    noteD1.nullifier ∈ stSpend.nullifiers ∧
    notesFind stSpend.notes (confCommitment 100 1 2) = some noteD1 ∧
    ShieldedPool.createTransfer stSpend (confCommitment 100 1 2) "0xcc" 200 1 8 9 10 11
      = (stSpend, .error (.insufficientBalance 100 200)) ∧
    (PoolErr.insufficientBalance 100 200 ≠ .alreadySpent noteD1.nullifier) := by
  refine ⟨?_, ?_, ?_, by simp⟩
  · rw [stSpend_eq, poolSpendX_lit, nulls_mk]
    simp
  · rw [stSpend_eq]
    exact poolSpendX_find
  · rw [stSpend_eq]
    have h := createTransfer_insufficient "0xcc" 1 8 9 10 11
      poolSpendX_find (by decide : noteD1.value < 200)
    rw [noteD1_value] at h
    exact h

/-- C7 (counterexample): the claimed precedence NotFound → AlreadySpent →
Insufficient is wrong: on a state whose note is both already spent and too
small for the requested amount, create_transfer reports
InsufficientBalanceError, because the source checks the value before the
nullifier. -/
theorem transfer_error_precedence_cex :
    noteD1.nullifier ∈ stSpend.nullifiers ∧
    notesFind stSpend.notes (confCommitment 100 1 2) = some noteD1 ∧
    noteD1.value < 300 ∧
    ShieldedPool.createTransfer stSpend (confCommitment 100 1 2) "0xee" 300 1 12 13 14 15
      = (stSpend, .error (.insufficientBalance 100 300)) ∧
    (∀ n : Nat, PoolErr.insufficientBalance 100 300 ≠ .alreadySpent n) := by
  refine ⟨?_, ?_, by decide, ?_, fun n => by simp⟩
  · rw [stSpend_eq, poolSpendX_lit, nulls_mk]
    simp
  · rw [stSpend_eq]
    exact poolSpendX_find
  · rw [stSpend_eq]
    have h := createTransfer_insufficient "0xee" 1 12 13 14 15
      poolSpendX_find (by decide : noteD1.value < 300)
    rw [noteD1_value] at h
    exact h

/-- C4 (counterexample): at (value, secret, salt) = (5, 7, 9) and
nullifier_salt 11 the pool note's derived values disagree with the spec's
nested two-argument formulas (under either two-argument hash of the code
base), and the nullifier is not a function of (value, secret, salt) alone —
changing only nullifier_salt changes it. -/
theorem note_derivation_cex :
    (ConfidentialNote.create 5 7 9 11).commitment ≠ pedersenHash 5 (pedersenHash 7 9) ∧
    (ConfidentialNote.create 5 7 9 11).commitment ≠ hashNodes 5 (hashNodes 7 9) ∧
    (ConfidentialNote.create 5 7 9 11).nullifier ≠ pedersenHash 7 9 ∧
    (ConfidentialNote.create 5 7 9 11).nullifier ≠ hashNodes 7 9 ∧
    (ConfidentialNote.create 5 7 9 11).nullifier
      ≠ (ConfidentialNote.create 5 7 9 13).nullifier := by
  refine ⟨by decide, by decide, by decide, by decide, by decide⟩

/-- The nodes heap produced by a successful NoteMerkleTree.insert. -/
theorem NoteMerkleTree.insert_lt_nodes {t : NoteMerkleTree} (c : Nat)
    (h : t.nextIndex < t.leaves.length) :
    (t.insert c).1.nodes
      = updateParents (updNodes t.nodes (t.nextIndex + 2 ^ t.depth - 1) (some c))
          (t.nextIndex + 2 ^ t.depth - 1) t.depth := by
  simp [NoteMerkleTree.insert, Nat.not_le.mpr h]

/-- C5 (counterexample): the pool's NoteMerkleTree breaks the claimed
round-trip. Inserting the first commitment (5) into the fresh depth-16 tree
succeeds at index 0, yet the tree's root is then the bare leaf value 5: the
parent loop propagates a lone child upward unhashed (None-collapse) and
get_root reads heap slot 1. The verifier instead refolds one
hash(current, sibling) per level, ignoring the recorded side, so it can
never reproduce such a root: at depth 1 (same code, fully evaluated) the
first insertion also succeeds, and verify_proof rejects the proof produced
by get_proof against the tree's own root. -/
theorem merkle_roundtrip_cex :
    ((NoteMerkleTree.new 16).insert 5).2 = .ok 0 ∧
    ((NoteMerkleTree.new 16).insert 5).1.getRoot = 5 ∧
    ((NoteMerkleTree.new 1).insert 5).2 = .ok 0 ∧
    (((NoteMerkleTree.new 1).insert 5).1.getProof 0).toOption.map
      (NoteMerkleTree.verifyProof 5) = some false := by
  have h := NoteMerkleTree.insert_lt (t := NoteMerkleTree.new 16) 5 new16_cap
  have hnodes := NoteMerkleTree.insert_lt_nodes (t := NoteMerkleTree.new 16) 5 new16_cap
  refine ⟨?_, ?_, by rfl, by decide⟩
  · rw [h.1]
    rfl
  · simp only [NoteMerkleTree.getRoot]
    rw [hnodes]
    decide

/-- C6 (counterexample): on a pool whose commitment tree is full (the shape
any pool reaches after 2^depth successful insertions), create_transfer
passes all its pre-checks, publishes the nullifier, and only then fails on
the tree insertion — the error leaves the published nullifier behind, so the
failing call is not atomic. -/
theorem transfer_atomicity_cex :
    (ShieldedPool.createTransfer wFullPool 5 "0xbob" 10 7 1 2 3 4).2
        = .error (.poolError "Transfer failed") ∧
    (ShieldedPool.createTransfer wFullPool 5 "0xbob" 10 7 1 2 3 4).1.nullifiers = [77] ∧
    wFullPool.nullifiers = [] ∧
    (ShieldedPool.createTransfer wFullPool 5 "0xbob" 10 7 1 2 3 4).1.nullifiers
      ≠ wFullPool.nullifiers := by
  refine ⟨rfl, rfl, rfl, by decide⟩

/-- C9 (counterexample): after scenWithdraw (deposit then withdraw), the
withdrawn note's leaf is still in the tree but the note is gone from the
dict, so import(export(pool)) rebuilds an empty tree: the reconstructed root
is 0 while the original root is the (nonzero) inserted commitment. -/
theorem persistence_roundtrip_cex :
    (ShieldedPool.importState (ShieldedPool.exportState stWithdraw)).toOption.map
        (fun p => p.tree.getRoot) = some 0 ∧
    stWithdraw.tree.getRoot ≠ 0 := by
  constructor
  · rw [stWithdraw_eq, poolWithdrawX_lit]
    rfl
  · rw [stWithdraw_eq, poolWithdrawX_lit, tree_mk]
    simp only [NoteMerkleTree.getRoot]
    rw [NoteMerkleTree.insert_lt_nodes noteD1.commitment new16_cap]
    decide

theorem depositBob_step :
    ShieldedPool.deposit emptyPool 100 bobSecret 2 3
      = (poolBob,
         .ok { amount := 100, note := noteBob, commitment := noteBob.commitment,
               nullifier := noteBob.nullifier, merkleIndex := 0,
               merkleRoot := ((NoteMerkleTree.new 16).insert
                 noteBob.commitment).1.getRoot }) := by
  rw [deposit_eq 100 bobSecret 2 3 (by decide) new16_cap]
  rfl

theorem depBob_applyOp : applyOp emptyPool (PoolOp.dep 100 bobSecret 2 3) = poolBob := by
  rw [applyOp_dep, depositBob_step, fst_pair]

/-- C10 (counterexample): anyone can deposit directly under the
address-derived secret; then get_balance of that secret (100) exceeds the
total actually transferred to the address (0), refuting the claimed equality
between the derived-secret balance and the transferred total. -/
theorem derived_secret_cex :
    (ShieldedPool.getBalance (runOps emptyPool [PoolOp.dep 100 bobSecret 2 3])
        bobSecret).totalBalance = 100 ∧
    sentToSecret emptyPool [PoolOp.dep 100 bobSecret 2 3] bobSecret = 0 := by
  constructor
  · rw [runOps_cons, depBob_applyOp, runOps_nil]
    decide
  · simp only [sentToSecret]

/-! ## Claim C9: persistence round-trip -/

theorem create_secret (v s sl ns : Nat) : (ConfidentialNote.create v s sl ns).secret = s := rfl

theorem create_value (v s sl ns : Nat) : (ConfidentialNote.create v s sl ns).value = v := rfl

theorem create_ek (v s sl ns : Nat) :
    (ConfidentialNote.create v s sl ns).encryption_key = confEncryptionKey s sl := rfl

theorem fromDict_toDict {n : ConfidentialNote}
    (h : n.encryption_key = confEncryptionKey n.secret n.salt) :
    ConfidentialNote.fromDict n.toDict = n := by
  cases n with
  | mk v s sl ns c nl ek =>
    simp only [ConfidentialNote.toDict, ConfidentialNote.fromDict] at h ⊢
    simp_all

theorem isOk_exists {E A : Type _} {e : Except E A} (h : e.isOk = true) :
    ∃ x, e = .ok x := by
  cases e with
  | ok x => exact ⟨x, rfl⟩
  | error _ => simp [Except.isOk, Except.toBool] at h

theorem insert_ok_lt {t : NoteMerkleTree} {c : Nat} {i : Nat}
    (h : (t.insert c).2 = .ok i) : t.nextIndex < t.leaves.length := by
  by_contra hge
  rw [NoteMerkleTree.insert_full c (Nat.not_lt.mp hge)] at h
  simp at h

theorem notesFind_append_none {a b : List (Nat × ConfidentialNote)} {k : Nat}
    (ha : notesFind a k = none) (hb : notesFind b k = none) :
    notesFind (a ++ b) k = none := by
  rw [notesFind_eq_none] at *
  simp only [List.map_append, List.mem_append]
  tauto

theorem foldl_notesSet_self (l : List (Nat × ConfidentialNote)) :
    ∀ acc : List (Nat × ConfidentialNote),
    (l.map Prod.fst).Nodup →
    (∀ p ∈ l, notesFind acc p.1 = none) →
    l.foldl (fun m p => notesSet m p.1 p.2) acc = acc ++ l := by
  induction l with
  | nil => intro acc _ _; simp
  | cons p rest ih =>
    intro acc hnd habs
    simp only [List.map_cons, List.nodup_cons] at hnd
    simp only [List.foldl_cons]
    rw [notesSet_absent p.2 (habs p (by simp))]
    rw [ih (acc ++ [(p.1, p.2)]) hnd.2 ?_]
    · simp
    · intro q hq
      refine notesFind_append_none (habs q (by simp [hq])) ?_
      rw [notesFind_eq_none]
      simp only [List.map_cons, List.map_nil, List.mem_singleton]
      intro hcontra
      exact hnd.1 (hcontra ▸ List.mem_map_of_mem Prod.fst hq)

theorem balance_eq_sum (st : PoolState) (s : Nat) :
    (ShieldedPool.getBalance st s).totalBalance
      = ((st.notes.filter (fun p => p.2.secret == s)).map (fun p => p.2.value)).sum := rfl

theorem importNotes_ok (l : List (Nat × ConfidentialNote)) : ∀ pool : PoolState,
    (∀ p ∈ l, p.2.encryption_key = confEncryptionKey p.2.secret p.2.salt) →
    pool.tree.nextIndex + l.length ≤ pool.tree.leaves.length →
    importNotes pool (l.map (fun p => (p.1, p.2.toDict)))
      = .ok { name := pool.name,
              notes := l.foldl (fun m p => notesSet m p.1 p.2) pool.notes,
              nullifiers := pool.nullifiers,
              tree := l.foldl (fun t p => (t.insert p.2.commitment).1) pool.tree } := by
  induction l with
  | nil =>
    intro pool _ _
    simp only [List.map_nil, importNotes, List.foldl_nil]
  | cons p rest ih =>
    intro pool hek hcap
    obtain ⟨k, n⟩ := p
    have hn : ConfidentialNote.fromDict n.toDict = n :=
      fromDict_toDict (hek (k, n) (by simp))
    have hlt : pool.tree.nextIndex < pool.tree.leaves.length := by
      simp only [List.length_cons] at hcap
      omega
    have hins := NoteMerkleTree.insert_lt (t := pool.tree) n.commitment hlt
    simp only [List.map_cons, importNotes, hn, List.foldl_cons]
    cases hI : pool.tree.insert n.commitment with
    | mk t2 r =>
      have hr : r = .ok pool.tree.nextIndex := by
        have h1 := hins.1
        rw [hI] at h1
        simpa using h1
      subst hr
      have hnext : t2.nextIndex = pool.tree.nextIndex + 1 := by
        have h1 := hins.2.1
        rw [hI] at h1
        simpa using h1
      have hfst : (pool.tree.insert n.commitment).1 = t2 := by rw [hI]
      have hlen2 : t2.leaves.length = pool.tree.leaves.length := by
        rw [← hfst]
        exact NoteMerkleTree.insert_leaves_length pool.tree n.commitment
    
      simp only []
      rw [ih { pool with notes := notesSet pool.notes k n, tree := t2 } ?hek2 ?hcap2]
      case hek2 =>
        intro q hq
        exact hek q (by simp [hq])
      case hcap2 =>
        show t2.nextIndex + rest.length ≤ t2.leaves.length
        rw [hnext, hlen2]
        simp only [List.length_cons] at hcap
        omega

theorem exportReady_empty : exportReady emptyPool := by
  refine ⟨?_, ?_, ?_, ?_, ?_, rfl⟩
  · intro p hp
    simp [emptyPool, PoolState.new] at hp
  · simp [emptyPool, PoolState.new]
  · rfl
  · show (List.replicate (2 ^ 16) (none : Option Nat)).length = 2 ^ 16
    exact List.length_replicate ..
  · show ([] : List (Nat × ConfidentialNote)).length ≤ 2 ^ 16
    simp

theorem exportReady_dep {st st2 : PoolState} {a s sl ns : Nat} {rec : DepositReceipt}
    (h : ShieldedPool.deposit st a s sl ns = (st2, .ok rec))
    (hfresh : notesFind st.notes (ConfidentialNote.create a s sl ns).commitment = none)
    (hinv : exportReady st) : exportReady st2 := by
  obtain ⟨hek, hnd, hidx, hlen, hle, htr⟩ := hinv
  obtain ⟨ha, _, _, hlt, hnotes, hnulls, htree, hname⟩ := deposit_ok_cases h
  have hins := NoteMerkleTree.insert_lt (t := st.tree)
    (ConfidentialNote.create a s sl ns).commitment hlt
  have hcount : st.notes.length < 2 ^ 16 := by
    have h1 := hlt
    rw [hidx, hlen] at h1
    exact h1
  refine ⟨?_, ?_, ?_, ?_, ?_, ?_⟩
  · intro p hp
    rw [hnotes, notesSet_absent _ hfresh] at hp
    rcases List.mem_append.mp hp with hp | hp
    · exact hek p hp
    · simp only [List.mem_singleton] at hp
      subst hp
      exact create_ek a s sl ns
  · rw [hnotes]
    exact notesSet_keys_nodup_absent _ hfresh hnd
  · rw [htree, hnotes, hins.2.1, hidx, notesSet_absent _ hfresh]
    simp
  · rw [htree, NoteMerkleTree.insert_leaves_length]
    exact hlen
  · rw [hnotes, notesSet_absent _ hfresh]
    simp only [List.length_append, List.length_cons, List.length_nil]
    omega
  · rw [htree, hnotes, notesSet_absent _ hfresh, htr, List.foldl_append]
    simp

theorem exportReady_tr {st st2 : PoolState} {c : Nat} {addr : String}
    {a s c1 c2 r1 r2 : Nat} {rec : TransferReceipt}
    (h : ShieldedPool.createTransfer st c addr a s c1 c2 r1 r2 = (st2, .ok rec))
    (hok : okOp st (PoolOp.tr c addr a s c1 c2 r1 r2) = true)
    (hinv : exportReady st) : exportReady st2 := by
  obtain ⟨hek, hnd, hidx, hlen, hle, htr⟩ := hinv
  obtain ⟨note, index, proof, hfind, hval, hnul, _, _, _, _, _, _, _, _, hbranch⟩ :=
    createTransfer_ok_cases h
  simp only [okOp, hfind, h, snd_pair, Except.isOk, Except.toBool, Bool.true_and] at hok
  have hcount : st.notes.length < 2 ^ 16 := by
    have h1 : st.tree.nextIndex < st.tree.leaves.length := by
      rcases hbranch with ⟨_, _, hins1ok, _, _, _⟩ | ⟨_, _, hins1ok, _, _⟩ <;>
        exact insert_ok_lt hins1ok
    rw [hidx, hlen] at h1
    exact h1
  rcases hbranch with ⟨hch, hchn, hins1ok, htree2, hins2ok, hnotes2⟩ |
    ⟨hch0, hchn, hins1ok, htree2, hnotes2⟩
  · -- change branch: two fresh notes are appended
    rw [if_pos hch] at hok
    rw [Bool.and_eq_true, Bool.and_eq_true] at hok
    obtain ⟨hfreshReB, hfreshChB, hneB⟩ := hok
    have hfreshRe := Option.isNone_iff_eq_none.mp hfreshReB
    have hfreshCh := Option.isNone_iff_eq_none.mp hfreshChB
    have hchne : (ConfidentialNote.create (note.value - a) s c1 c2).commitment
        ≠ (ConfidentialNote.create a (recipientSecretOf addr) r1 r2).commitment :=
      bne_iff_ne.mp hneB
    have hfreshRe2 : notesFind
        (notesSet st.notes (ConfidentialNote.create (note.value - a) s c1 c2).commitment
          (ConfidentialNote.create (note.value - a) s c1 c2))
        (ConfidentialNote.create a (recipientSecretOf addr) r1 r2).commitment = none := by
      rw [notesFind_notesSet, if_neg (fun hc => hchne hc.symm)]
      exact hfreshRe
    have hlt1 : st.tree.nextIndex < st.tree.leaves.length := insert_ok_lt hins1ok
    have hins1 := NoteMerkleTree.insert_lt (t := st.tree)
      (ConfidentialNote.create (note.value - a) s c1 c2).commitment hlt1
    have hlt2 := insert_ok_lt hins2ok
    have hins2 := NoteMerkleTree.insert_lt
      (t := (st.tree.insert
        (ConfidentialNote.create (note.value - a) s c1 c2).commitment).1)
      (ConfidentialNote.create a (recipientSecretOf addr) r1 r2).commitment hlt2
    have hcap2 : st.tree.nextIndex + 1 < 2 ^ 16 := by
      have h2 := hlt2
      rw [hins1.2.1, NoteMerkleTree.insert_leaves_length, hlen] at h2
      exact h2
    refine ⟨?_, ?_, ?_, ?_, ?_, ?_⟩
    · intro p hp
      rw [hnotes2, notesSet_absent _ hfreshRe2, notesSet_absent _ hfreshCh] at hp
      rcases List.mem_append.mp hp with hp | hp
      · rcases List.mem_append.mp hp with hp | hp
        · exact hek p hp
        · simp only [List.mem_singleton] at hp
          subst hp
          exact create_ek ..
      · simp only [List.mem_singleton] at hp
        subst hp
        exact create_ek ..
    · rw [hnotes2]
      exact notesSet_keys_nodup_absent _ hfreshRe2
        (notesSet_keys_nodup_absent _ hfreshCh hnd)
    · rw [htree2, hnotes2, hins2.2.1, hins1.2.1, hidx,
        notesSet_absent _ hfreshRe2, notesSet_absent _ hfreshCh]
      simp
    · rw [htree2, NoteMerkleTree.insert_leaves_length,
        NoteMerkleTree.insert_leaves_length]
      exact hlen
    · rw [hnotes2, notesSet_absent _ hfreshRe2, notesSet_absent _ hfreshCh]
      simp only [List.length_append, List.length_cons, List.length_nil]
      rw [← hidx]
      omega
    · rw [htree2, hnotes2, notesSet_absent _ hfreshRe2, notesSet_absent _ hfreshCh,
        htr, List.foldl_append, List.foldl_append]
      simp
  · -- no-change branch: a single fresh note is appended
    rw [if_neg (by omega : ¬ 0 < note.value - a)] at hok
    simp only [Bool.and_true] at hok
    have hfreshRe := Option.isNone_iff_eq_none.mp hok
    have hlt1 : st.tree.nextIndex < st.tree.leaves.length := insert_ok_lt hins1ok
    have hins1 := NoteMerkleTree.insert_lt (t := st.tree)
      (ConfidentialNote.create a (recipientSecretOf addr) r1 r2).commitment hlt1
    refine ⟨?_, ?_, ?_, ?_, ?_, ?_⟩
    · intro p hp
      rw [hnotes2, notesSet_absent _ hfreshRe] at hp
      rcases List.mem_append.mp hp with hp | hp
      · exact hek p hp
      · simp only [List.mem_singleton] at hp
        subst hp
        exact create_ek ..
    · rw [hnotes2]
      exact notesSet_keys_nodup_absent _ hfreshRe hnd
    · rw [htree2, hnotes2, hins1.2.1, hidx, notesSet_absent _ hfreshRe]
      simp
    · rw [htree2, NoteMerkleTree.insert_leaves_length]
      exact hlen
    · rw [hnotes2, notesSet_absent _ hfreshRe]
      simp only [List.length_append, List.length_cons, List.length_nil]
      omega
    · rw [htree2, hnotes2, notesSet_absent _ hfreshRe, htr, List.foldl_append]
      simp

theorem exportReady_run (ops : List PoolOp) : ∀ st : PoolState,
    exportReady st → okRun st ops = true → noWithdraw ops = true →
    exportReady (runOps st ops) := by
  induction ops with
  | nil =>
    intro st hinv _ _
    rw [runOps_nil]
    exact hinv
  | cons op ops ih =>
    intro st hinv hok hnw
    rw [runOps_cons]
    simp only [okRun, Bool.and_eq_true] at hok
    obtain ⟨hok1, hokRest⟩ := hok
    cases op with
    | dep a s sl ns =>
      have hnw2 : noWithdraw ops = true := by simpa [noWithdraw] using hnw
      have hok1b := hok1
      simp only [okOp, Bool.and_eq_true] at hok1b
      obtain ⟨hisok, hfreshB⟩ := hok1b
      obtain ⟨rec, hrec⟩ := isOk_exists hisok
      have hcall : ShieldedPool.deposit st a s sl ns
          = ((ShieldedPool.deposit st a s sl ns).1, .ok rec) := by
        rw [← hrec]
      exact ih _ (exportReady_dep hcall (Option.isNone_iff_eq_none.mp hfreshB) hinv)
        hokRest hnw2
    | tr c addr a s c1 c2 r1 r2 =>
      have hnw2 : noWithdraw ops = true := by simpa [noWithdraw] using hnw
      have hok1b := hok1
      simp only [okOp, Bool.and_eq_true] at hok1b
      obtain ⟨rec, hrec⟩ := isOk_exists hok1b.1
      have hcall : ShieldedPool.createTransfer st c addr a s c1 c2 r1 r2
          = ((ShieldedPool.createTransfer st c addr a s c1 c2 r1 r2).1, .ok rec) := by
        rw [← hrec]
      exact ih _ (exportReady_tr hcall hok1 hinv) hokRest hnw2
    | wd c s addr =>
      exact absurd hnw (by simp [noWithdraw])

/-- C9 (amended): the export/import round-trip is state-preserving exactly
for withdraw-free successful runs: the reimported pool has the same notes
(hence the same get_balance for every secret), the same rebuilt tree and
root, and the same nullifier membership. (After a withdraw the claim fails:
the withdrawn leaf is dropped from the rebuilt tree and the root changes —
see the counterexample.) -/
theorem persistence_roundtrip_amended :
    ∀ ops : List PoolOp, okRun emptyPool ops = true → noWithdraw ops = true →
    ∃ pool2 : PoolState,
      ShieldedPool.importState (ShieldedPool.exportState (runOps emptyPool ops))
        = .ok pool2 ∧
      pool2.notes = (runOps emptyPool ops).notes ∧
      pool2.tree = (runOps emptyPool ops).tree ∧
      pool2.tree.getRoot = (runOps emptyPool ops).tree.getRoot ∧
      (∀ s, (ShieldedPool.getBalance pool2 s).totalBalance
          = (ShieldedPool.getBalance (runOps emptyPool ops) s).totalBalance) ∧
      (∀ n, n ∈ pool2.nullifiers ↔ n ∈ (runOps emptyPool ops).nullifiers) := by
  intro ops hok hnw
  obtain ⟨hek, hnd, hidx, hlen, hle, htr⟩ :=
    exportReady_run ops emptyPool exportReady_empty hok hnw
  set st := runOps emptyPool ops with hst
  have hnew : (PoolState.new st.name).tree = NoteMerkleTree.new 16 := rfl
  have hcap : (PoolState.new st.name).tree.nextIndex + st.notes.length
      ≤ (PoolState.new st.name).tree.leaves.length := by
    rw [hnew]
    have h2 : (NoteMerkleTree.new 16).nextIndex = 0 := rfl
    have h3 : (NoteMerkleTree.new 16).leaves.length = 2 ^ 16 := by
      show (List.replicate (2 ^ 16) (none : Option Nat)).length = 2 ^ 16
      exact List.length_replicate ..
    rw [h2, h3]
    omega
  have himp := importNotes_ok st.notes (PoolState.new st.name) hek hcap
  have hnotes2 : st.notes.foldl (fun m p => notesSet m p.1 p.2)
      (PoolState.new st.name).notes = st.notes := by
    have h0 : (PoolState.new st.name).notes = [] := rfl
    rw [h0, foldl_notesSet_self st.notes [] hnd (fun p _ => rfl)]
    simp
  have htree2 : st.notes.foldl (fun t p => (t.insert p.2.commitment).1)
      (PoolState.new st.name).tree = st.tree := by
    rw [hnew]
    exact htr.symm
  simp only [ShieldedPool.exportState, ShieldedPool.importState]
  rw [himp]
  refine ⟨_, rfl, ?_, ?_, ?_, ?_, ?_⟩
  · show st.notes.foldl (fun m p => notesSet m p.1 p.2) (PoolState.new st.name).notes
      = st.notes
    exact hnotes2
  · show st.notes.foldl (fun t p => (t.insert p.2.commitment).1)
      (PoolState.new st.name).tree = st.tree
    exact htree2
  · show (st.notes.foldl (fun t p => (t.insert p.2.commitment).1)
      (PoolState.new st.name).tree).getRoot = st.tree.getRoot
    rw [htree2]
  · intro s
    rw [balance_eq_sum, balance_eq_sum]
    show (((st.notes.foldl (fun m p => notesSet m p.1 p.2)
        (PoolState.new st.name).notes).filter (fun p => p.2.secret == s)).map
        (fun p => p.2.value)).sum
      = ((st.notes.filter (fun p => p.2.secret == s)).map (fun p => p.2.value)).sum
    rw [hnotes2]
  · intro n
    show n ∈ st.nullifiers.foldl nullAdd (PoolState.new st.name).nullifiers
      ↔ n ∈ st.nullifiers
    rw [show (PoolState.new st.name).nullifiers = [] from rfl]
    rw [mem_foldl_nullAdd]
    simp

/-- C9 (witness): the amended round-trip applied to the withdraw-free
scenChange run. -/
theorem persistence_roundtrip_amended_witness :
    ∃ pool2 : PoolState,
      ShieldedPool.importState (ShieldedPool.exportState (runOps emptyPool scenChange))
        = .ok pool2 ∧
      pool2.notes = (runOps emptyPool scenChange).notes ∧
      pool2.tree = (runOps emptyPool scenChange).tree ∧
      pool2.tree.getRoot = (runOps emptyPool scenChange).tree.getRoot ∧
      (∀ s, (ShieldedPool.getBalance pool2 s).totalBalance
          = (ShieldedPool.getBalance (runOps emptyPool scenChange) s).totalBalance) ∧
      (∀ n, n ∈ pool2.nullifiers ↔ n ∈ (runOps emptyPool scenChange).nullifiers) :=
  persistence_roundtrip_amended scenChange okRun_scenChange (by decide)

/-! ## Claim C10: the derived recipient secret -/

theorem filtered_sum_notesSet_absent (dA : Nat) {m : List (Nat × ConfidentialNote)}
    {k : Nat} (v : ConfidentialNote) (h : notesFind m k = none) :
    (((notesSet m k v).filter (fun p => p.2.secret == dA)).map (fun p => p.2.value)).sum
      = ((m.filter (fun p => p.2.secret == dA)).map (fun p => p.2.value)).sum
        + (if v.secret = dA then v.value else 0) := by
  rw [notesSet_absent v h, List.filter_append, List.map_append, List.sum_append]
  by_cases hv : v.secret = dA
  · simp [List.filter_cons, hv]
  · simp [List.filter_cons, hv]

theorem sentToSecret_nil (st : PoolState) (dA : Nat) : sentToSecret st [] dA = 0 := rfl

theorem sentToSecret_dep (st : PoolState) (a s sl ns : Nat) (ops : List PoolOp) (dA : Nat) :
    sentToSecret st (PoolOp.dep a s sl ns :: ops) dA
      = sentToSecret (applyOp st (PoolOp.dep a s sl ns)) ops dA := by
  simp only [sentToSecret]

theorem sentToSecret_wd (st : PoolState) (c s : Nat) (addr : String)
    (ops : List PoolOp) (dA : Nat) :
    sentToSecret st (PoolOp.wd c s addr :: ops) dA
      = sentToSecret (applyOp st (PoolOp.wd c s addr)) ops dA := by
  simp only [sentToSecret]

theorem sentToSecret_tr_ok {st : PoolState} {c : Nat} {addr : String}
    {a s c1 c2 r1 r2 : Nat} {st2 : PoolState} {rec : TransferReceipt}
    (ops : List PoolOp) (dA : Nat)
    (h : ShieldedPool.createTransfer st c addr a s c1 c2 r1 r2 = (st2, .ok rec)) :
    sentToSecret st (PoolOp.tr c addr a s c1 c2 r1 r2 :: ops) dA
      = (if recipientSecretOf addr = dA then a else 0)
        + sentToSecret (applyOp st (PoolOp.tr c addr a s c1 c2 r1 r2)) ops dA := by
  simp only [sentToSecret]
  rw [h, snd_pair]

theorem sentToSecret_balance (dA : Nat) (ops : List PoolOp) : ∀ st : PoolState,
    (st.notes.map Prod.fst).Nodup →
    okRun st ops = true → avoidsSecret dA ops = true →
    ((runOps st ops).notes.map Prod.fst).Nodup ∧
    (ShieldedPool.getBalance (runOps st ops) dA).totalBalance
      = (ShieldedPool.getBalance st dA).totalBalance + sentToSecret st ops dA := by
  induction ops with
  | nil =>
    intro st hnd _ _
    rw [runOps_nil, sentToSecret_nil]
    exact ⟨hnd, by omega⟩
  | cons op ops ih =>
    intro st hnd hok hav
    rw [runOps_cons]
    simp only [okRun, Bool.and_eq_true] at hok
    obtain ⟨hok1, hokRest⟩ := hok
    cases op with
    | dep a s sl ns =>
      simp only [avoidsSecret, Bool.and_eq_true] at hav
      obtain ⟨hsneB, havRest⟩ := hav
      have hsne : s ≠ dA := bne_iff_ne.mp hsneB
      have hok1b := hok1
      simp only [okOp, Bool.and_eq_true] at hok1b
      obtain ⟨hisok, hfreshB⟩ := hok1b
      have hfresh := Option.isNone_iff_eq_none.mp hfreshB
      obtain ⟨rec, hrec⟩ := isOk_exists hisok
      have hcall : ShieldedPool.deposit st a s sl ns
          = ((ShieldedPool.deposit st a s sl ns).1, .ok rec) := by
        rw [← hrec]
      obtain ⟨_, _, _, _, hnotes, _, _, _⟩ := deposit_ok_cases hcall
      have hnd2 : (((ShieldedPool.deposit st a s sl ns).1.notes).map Prod.fst).Nodup := by
        rw [hnotes]
        exact notesSet_keys_nodup_absent _ hfresh hnd
      have hbal : (ShieldedPool.getBalance (ShieldedPool.deposit st a s sl ns).1
          dA).totalBalance = (ShieldedPool.getBalance st dA).totalBalance := by
        rw [balance_eq_sum, balance_eq_sum, hnotes,
          filtered_sum_notesSet_absent dA _ hfresh, create_secret, if_neg hsne]
        omega
      obtain ⟨ihnd, ihbal⟩ := ih ((ShieldedPool.deposit st a s sl ns).1) hnd2
        hokRest havRest
      refine ⟨ihnd, ?_⟩
      rw [sentToSecret_dep]
      show (ShieldedPool.getBalance
          (runOps (applyOp st (PoolOp.dep a s sl ns)) ops) dA).totalBalance
        = (ShieldedPool.getBalance st dA).totalBalance
          + sentToSecret (applyOp st (PoolOp.dep a s sl ns)) ops dA
      rw [applyOp_dep, ihbal, hbal]
    | wd c s addr =>
      simp only [avoidsSecret, Bool.and_eq_true] at hav
      obtain ⟨hsneB, havRest⟩ := hav
      have hsne : s ≠ dA := bne_iff_ne.mp hsneB
      have hok1b := hok1
      simp only [okOp] at hok1b
      obtain ⟨rec, hrec⟩ := isOk_exists hok1b
      have hcall : ShieldedPool.withdraw st c s addr
          = ((ShieldedPool.withdraw st c s addr).1, .ok rec) := by
        rw [← hrec]
      obtain ⟨note, hfind, _, hsec, _, _, hnotes, _, _, _⟩ := withdraw_ok_cases hcall
      have hpfalse : ((fun p => p.2.secret == dA) (c, note)) = false := by
        simp only []
        rw [hsec]
        exact beq_eq_false_iff_ne.mpr hsne
      have hnd2 : (((ShieldedPool.withdraw st c s addr).1.notes).map Prod.fst).Nodup := by
        rw [hnotes]
        exact hnd.sublist ((notesErase_sublist st.notes c).map Prod.fst)
      have hbal : (ShieldedPool.getBalance (ShieldedPool.withdraw st c s addr).1
          dA).totalBalance = (ShieldedPool.getBalance st dA).totalBalance := by
        rw [balance_eq_sum, balance_eq_sum, hnotes,
          filter_sum_notesErase _ hnd hfind hpfalse]
      obtain ⟨ihnd, ihbal⟩ := ih ((ShieldedPool.withdraw st c s addr).1) hnd2
        hokRest havRest
      refine ⟨ihnd, ?_⟩
      rw [sentToSecret_wd]
      show (ShieldedPool.getBalance
          (runOps (applyOp st (PoolOp.wd c s addr)) ops) dA).totalBalance
        = (ShieldedPool.getBalance st dA).totalBalance
          + sentToSecret (applyOp st (PoolOp.wd c s addr)) ops dA
      rw [applyOp_wd, ihbal, hbal]
    | tr c addr a s c1 c2 r1 r2 =>
      simp only [avoidsSecret, Bool.and_eq_true] at hav
      obtain ⟨hsneB, havRest⟩ := hav
      have hsne : s ≠ dA := bne_iff_ne.mp hsneB
      have hok1b := hok1
      simp only [okOp, Bool.and_eq_true] at hok1b
      obtain ⟨rec, hrec⟩ := isOk_exists hok1b.1
      have hcall : ShieldedPool.createTransfer st c addr a s c1 c2 r1 r2
          = ((ShieldedPool.createTransfer st c addr a s c1 c2 r1 r2).1, .ok rec) := by
        rw [← hrec]
      obtain ⟨note, index, proof, hfind, hval, hnul, hidx2, hproof, hfrom, hamt,
        hnp, hto, hname, hnulls, hbranch⟩ := createTransfer_ok_cases hcall
      have hokf := hok1
      simp only [okOp, hfind] at hokf
      rw [hcall, snd_pair] at hokf
      simp only [Except.isOk, Except.toBool, Bool.true_and] at hokf
      have hstep : ((ShieldedPool.getBalance
            (ShieldedPool.createTransfer st c addr a s c1 c2 r1 r2).1 dA).totalBalance
          = (ShieldedPool.getBalance st dA).totalBalance
            + (if recipientSecretOf addr = dA then a else 0)) ∧
          ((((ShieldedPool.createTransfer st c addr a s c1 c2 r1 r2).1.notes).map
            Prod.fst).Nodup) := by
        rcases hbranch with ⟨hch, hchn, hins1ok, htree2, hins2ok, hnotes2⟩ |
          ⟨hch0, hchn, hins1ok, htree2, hnotes2⟩
        · rw [if_pos hch, Bool.and_eq_true, Bool.and_eq_true] at hokf
          obtain ⟨hfreshReB, hfreshChB, hneB⟩ := hokf
          have hfreshRe := Option.isNone_iff_eq_none.mp hfreshReB
          have hfreshCh := Option.isNone_iff_eq_none.mp hfreshChB
          have hchne : (ConfidentialNote.create (note.value - a) s c1 c2).commitment
              ≠ (ConfidentialNote.create a (recipientSecretOf addr) r1 r2).commitment :=
            bne_iff_ne.mp hneB
          have hfreshRe2 : notesFind
              (notesSet st.notes
                (ConfidentialNote.create (note.value - a) s c1 c2).commitment
                (ConfidentialNote.create (note.value - a) s c1 c2))
              (ConfidentialNote.create a (recipientSecretOf addr) r1 r2).commitment
              = none := by
            rw [notesFind_notesSet, if_neg (fun hc => hchne hc.symm)]
            exact hfreshRe
          constructor
          · rw [balance_eq_sum, balance_eq_sum, hnotes2,
              filtered_sum_notesSet_absent dA _ hfreshRe2,
              filtered_sum_notesSet_absent dA _ hfreshCh,
              create_secret, create_secret, if_neg hsne, create_value]
            omega
          · rw [hnotes2]
            exact notesSet_keys_nodup_absent _ hfreshRe2
              (notesSet_keys_nodup_absent _ hfreshCh hnd)
        · rw [if_neg (by omega : ¬ 0 < note.value - a)] at hokf
          simp only [Bool.and_true] at hokf
          have hfreshRe := Option.isNone_iff_eq_none.mp hokf
          constructor
          · rw [balance_eq_sum, balance_eq_sum, hnotes2,
              filtered_sum_notesSet_absent dA _ hfreshRe,
              create_secret, create_value]
          · rw [hnotes2]
            exact notesSet_keys_nodup_absent _ hfreshRe hnd
      obtain ⟨ihnd, ihbal⟩ := ih ((ShieldedPool.createTransfer st c addr
        a s c1 c2 r1 r2).1) hstep.2 hokRest havRest
      refine ⟨ihnd, ?_⟩
      rw [sentToSecret_tr_ok ops dA hcall]
      show (ShieldedPool.getBalance
          (runOps (applyOp st (PoolOp.tr c addr a s c1 c2 r1 r2)) ops) dA).totalBalance
        = (ShieldedPool.getBalance st dA).totalBalance
          + ((if recipientSecretOf addr = dA then a else 0)
            + sentToSecret (applyOp st (PoolOp.tr c addr a s c1 c2 r1 r2)) ops dA)
      rw [applyOp_tr, ihbal, hstep.1]
      omega

/-- C10 (amended): in every successful transfer the recipient note's secret
is exactly sha256(to_address) mod 2^256, derived from the public address and
supplied by no party; and for runs in which no operation uses the derived
secret on the owner side, get_balance of the derived secret equals the total
of amounts successfully transferred to the address. (Without that condition
the equality fails — anyone who deposits under the derived secret inflates
the balance; see the counterexample.) -/
theorem derived_secret_amended :
    (∀ (st : PoolState) (c : Nat) (addr : String) (a s c1 c2 r1 r2 : Nat)
       (st2 : PoolState) (rec : TransferReceipt),
      ShieldedPool.createTransfer st c addr a s c1 c2 r1 r2 = (st2, .ok rec) →
      rec.toNote.secret = recipientSecretOf addr ∧
      rec.toNote.secret = Sha256.sha256 (strBytes addr) % 2 ^ 256) ∧
    (∀ (dA : Nat) (ops : List PoolOp),
      okRun emptyPool ops = true → avoidsSecret dA ops = true →
      (ShieldedPool.getBalance (runOps emptyPool ops) dA).totalBalance
        = sentToSecret emptyPool ops dA) := by
  constructor
  · intro st c addr a s c1 c2 r1 r2 st2 rec h
    obtain ⟨note, index, proof, hfind, hval, hnul, hidx, hproof, hfrom, hamt,
      hnp, hto, hname, hnulls, hbranch⟩ := createTransfer_ok_cases h
    rw [hto]
    exact ⟨create_secret .., (create_secret ..).trans rfl⟩
  · intro dA ops hok hav
    have h := (sentToSecret_balance dA ops emptyPool
      (by simp [emptyPool, PoolState.new]) hok hav).2
    rw [h]
    have h0 : (ShieldedPool.getBalance emptyPool dA).totalBalance = 0 := rfl
    rw [h0]
    omega

/-- C10 (witness): the derived-secret law on scenChange — the recipient note
of the transfer to 0xbob carries the derived secret, and the balance of that
secret after the run equals the amount sent to 0xbob. -/
theorem derived_secret_amended_witness :
    (noteRe40.secret = recipientSecretOf "0xbob" ∧
     noteRe40.secret = Sha256.sha256 (strBytes "0xbob") % 2 ^ 256) ∧
    (ShieldedPool.getBalance (runOps emptyPool scenChange) bobSecret).totalBalance
      = sentToSecret emptyPool scenChange bobSecret :=
  ⟨derived_secret_amended.1 _ _ _ _ _ _ _ _ _ _ _ transferChange_step,
   derived_secret_amended.2 bobSecret scenChange okRun_scenChange (by decide)⟩
